import Mathlib

/-!
Tape delay effect (`EffectPlugin.cpp`, `EffectPlugin.h`)

A shallow embedding of `MyEffect`: the circular delay buffer and its write
cursor, the tap resolver `TapPos`, the two waveshapers `Trioderizer` and
`Pentoderizer`, and the per-block `process` loop.

Modelling conventions.

* Values are elements of a linear ordered field `α`; the definitions are
  computable and run on `ℚ`, statements about exponentials are read on `ℝ`.
* The tap index is computed as the source computes it: the time control is
  evaluated in `double` and narrowed to `float`, the product with the sample
  rate and the difference from the cursor are rounded to `float` (`toFloat`,
  `toDouble`: round to nearest, ties to even), and the conversion
  `float → int` truncates toward zero (`toInt`).
* The arithmetic on sample values in `process`, `Trioderizer` and
  `Pentoderizer` is exact.  The mixing stage is given a second time on
  floating-point values with infinities and NaN (`FloatVal`, `mixSample`),
  where a finite result beyond the largest finite value overflows.
* `int` members are `Int`; all values that occur stay far below `2^31`.
* Memory reached through a pointer is a total function from offsets to
  values.  `pfCircularBuffer` points to an array of `iBufferSize` floats:
  offsets `0 ≤ i < iBufferSize` are the array, any other offset is memory
  the effect does not own.
* `pow` of `<cmath>` and `Noise::tick` of the STK library are not part of
  the repository: `pow` is a parameter of the definitions that use it, and
  the noise generator is the sequence of samples it produces together with
  the number of samples drawn so far.
-/

namespace TapeDelay

variable {α : Type} [LinearOrderedField α] [FloorRing α]

/-- Conversion of a floating-point value to `int`: the fractional part is
discarded (truncation toward zero). -/
def toInt (x : α) : Int :=
  if 0 ≤ x then ⌊x⌋ else ⌈x⌉

/-- Rounding to the nearest integer, ties to the even one. -/
def roundNearestEven (x : α) : Int :=
  if 2 * Int.fract x < 1 then ⌊x⌋
  else if 1 < 2 * Int.fract x then ⌊x⌋ + 1
  else if ⌊x⌋ % 2 = 0 then ⌊x⌋ else ⌊x⌋ + 1

/-- Rounding of an exact value to the binary floating-point format with `p`
significand bits: round to nearest, ties to even, exponent range unbounded. -/
def roundTo (p : Nat) (x : α) : α :=
  if x = 0 then 0
  else
    let ulp : α := 2 ^ (Int.log 2 |x| - ((p : Int) - 1))
    (roundNearestEven (x / ulp) : α) * ulp

/-- Rounding to `float` (binary32, 24 significand bits). -/
def toFloat (x : α) : α := roundTo 24 x

/-- Rounding to `double` (binary64, 53 significand bits). -/
def toDouble (x : α) : α := roundTo 53 x

/-- The members of `MyEffect` (`EffectPlugin.h`), with the `parameters` it
inherits from `APDI::Effect` (current control values by index), the
framework-wide STK sample rate, and the noise generator `hiss`: the sequence
of samples it produces and the number of `tick()` calls made so far. -/
structure MyEffect (α : Type) where
  parameters : Nat → α
  stkSampleRate : α
  iBufferSize : Int
  iBufferWritePos : Int
  fSR : Int
  iBufferPos : Int
  pfCircularBuffer : Int → α
  fDelaySig : α
  hiss : Nat → α
  hissTicks : Nat

/-- The loop `for (int i = 0; i < iBufferSize; i++) pfCircularBuffer[i] = 0;`
of the constructor, run for `n` iterations starting at `i = 0`. -/
def zeroFill : Nat → (Int → α) → (Int → α)
  | 0, buf => buf
  | n + 1, buf => Function.update (zeroFill n buf) (n : Int) 0

/-- The constructor `MyEffect::MyEffect`, called by `createEffect(sampleRate)` with the ten
controls of `CONTROLS`, whose current values all start at `0`.  `heap` is the
content of the freshly allocated memory, `junk` the indeterminate initial
value of `iBufferPos`, `noise` the samples the generator will produce. -/
def createEffect (sampleRate : α) (heap : Int → α) (junk : Int) (noise : Nat → α) :
    MyEffect α :=
  { parameters := fun _ => 0
    stkSampleRate := sampleRate
    iBufferSize := 2 * 44100
    iBufferWritePos := 0
    fSR := 44100
    iBufferPos := junk
    pfCircularBuffer := zeroFill (2 * 44100) heap
    fDelaySig := 0
    hiss := noise
    hissTicks := 0 }

/-- The tap resolver `MyEffect::TapPos`: in `iBufferWritePos - (fTime * fSR)`
both `int` operands are converted to `float`, the product and the difference
are `float` operations, and the initialisation of the `int` truncates. -/
def MyEffect.TapPos (e : MyEffect α) (fTime : α) : Int :=
  let iBufferReadPos :=
    toInt (toFloat (toFloat (e.iBufferWritePos : α) - toFloat (fTime * toFloat (e.fSR : α))))
  if iBufferReadPos < 0 then iBufferReadPos + e.iBufferSize else iBufferReadPos

/-- The waveshaper `MyEffect::Trioderizer`. -/
def Trioderizer (input : α) : α :=
  if input > 0 then input * input else -(input * (0.9 * input))

/-- The waveshaper `MyEffect::Pentoderizer`; `pow` is the `<cmath>` power function. -/
def Pentoderizer (pow : α → α → α) (input : α) : α :=
  let out := if input > 0 then 1 - pow 10 (-1 * input) else -1 + pow 9 input
  out * 1.111

/-- The values `process` reads from `parameters` before its loop. -/
structure Controls (α : Type) where
  fTime : α
  fFeedbackGain : α
  fDistortionAmount : α
  fHissAmount : α
  iDistortType : Int

/-- The parameter snapshot at the top of `process`.  In
`float fTime = (parameters[0] * 0.3) + 0.1` the literals are `double`, so the
product and the sum are `double` operations and the result is narrowed to
`float`. -/
def MyEffect.controls (e : MyEffect α) : Controls α :=
  { fTime := toFloat (toDouble (toDouble (e.parameters 0 * toDouble 0.3) + toDouble 0.1))
    fFeedbackGain := e.parameters 1 * e.parameters 1
    fDistortionAmount := e.parameters 2
    fHissAmount := e.parameters 3
    iDistortType := toInt (e.parameters 4) }

/-- The variables the loop of `process` carries from one sample to the next:
the effect, the four moving pointers (as offsets into their buffers), the
contents of the two output buffers, and the locals declared before the loop. -/
structure LoopState (α : Type) where
  effect : MyEffect α
  pfInBuffer0 : Nat
  pfInBuffer1 : Nat
  pfOutBuffer0 : Nat
  pfOutBuffer1 : Nat
  out0 : Nat → α
  out1 : Nat → α
  fDistortSig : α
  fOut0 : α
  fOut1 : α

/-- The cursor update `iBufferWritePos++; if (iBufferWritePos > iBufferSize)
iBufferWritePos -= iBufferSize;`. -/
def advance (iBufferSize iBufferWritePos : Int) : Int :=
  let pos := iBufferWritePos + 1
  if pos > iBufferSize then pos - iBufferSize else pos

/-- One iteration of the `while (numSamples--)` loop of `process`, on the
input buffers `in0`, `in1`. -/
def processSample (pow : α → α → α) (c : Controls α) (in0 in1 : Nat → α)
    (l : LoopState α) : LoopState α :=
  let fIn0 := in0 l.pfInBuffer0
  let fIn1 := in1 l.pfInBuffer1
  let fMix := fIn0 + fIn1
  let e1 : MyEffect α :=
    { l.effect with
      pfCircularBuffer :=
        Function.update l.effect.pfCircularBuffer l.effect.iBufferWritePos fMix }
  let e2 : MyEffect α :=
    { e1 with iBufferWritePos := advance e1.iBufferSize e1.iBufferWritePos }
  let e3 : MyEffect α := { e2 with iBufferPos := e2.TapPos c.fTime }
  let fDelaySig := e3.pfCircularBuffer e3.iBufferPos
  let fDistortSig :=
    if c.iDistortType = 0 then
      1.2 * Trioderizer (fMix + (fDelaySig * c.fFeedbackGain))
    else if c.iDistortType = 1 then
      Pentoderizer pow (fMix + (fDelaySig * c.fFeedbackGain))
    else l.fDistortSig
  let fHiss := (e3.hiss e3.hissTicks * c.fHissAmount) * 0.015
  let fOutTotal := (fMix * (1 - c.fDistortionAmount))
    + (fDelaySig * c.fFeedbackGain) * (1 - c.fDistortionAmount)
    + (fDistortSig * c.fDistortionAmount)
    + fHiss
  { effect := { e3 with fDelaySig := fDelaySig, hissTicks := e3.hissTicks + 1 }
    pfInBuffer0 := l.pfInBuffer0 + 1
    pfInBuffer1 := l.pfInBuffer1 + 1
    pfOutBuffer0 := l.pfOutBuffer0 + 1
    pfOutBuffer1 := l.pfOutBuffer1 + 1
    out0 := Function.update l.out0 l.pfOutBuffer0 fOutTotal
    out1 := Function.update l.out1 l.pfOutBuffer1 fOutTotal
    fDistortSig := fDistortSig
    fOut0 := fOutTotal
    fOut1 := fOutTotal }

/-- The loop `while (numSamples--) { ... }`. -/
def processLoop (pow : α → α → α) (c : Controls α) (in0 in1 : Nat → α) :
    Nat → LoopState α → LoopState α
  | 0, l => l
  | n + 1, l => processLoop pow c in0 in1 n (processSample pow c in0 in1 l)

/-- The method `MyEffect::process` on the input buffers `in0 = inputBuffers[0]`,
`in1 = inputBuffers[1]` and the output buffers with initial contents `out0`,
`out1`; the result holds the effect and the output buffers afterwards.
`numSamples` is a block length, hence a natural number; the input and output
buffers are distinct memory. -/
def MyEffect.process (pow : α → α → α) (e : MyEffect α) (in0 in1 out0 out1 : Nat → α)
    (numSamples : Nat) : LoopState α :=
  processLoop pow e.controls in0 in1 numSamples
    { effect := e
      pfInBuffer0 := 0
      pfInBuffer1 := 0
      pfOutBuffer0 := 0
      pfOutBuffer1 := 0
      out0 := out0
      out1 := out1
      fDistortSig := 0.0
      fOut0 := 0
      fOut1 := 0 }

/-- The states an effect can be in: freshly created, after the host has set
control values, and after a call of `process`. -/
inductive Reachable (pow : α → α → α) : MyEffect α → Prop
  | created (sampleRate : α) (heap : Int → α) (junk : Int) (noise : Nat → α) :
      Reachable pow (createEffect sampleRate heap junk noise)
  | setParameters (e : MyEffect α) (p : Nat → α) :
      Reachable pow e → Reachable pow { e with parameters := p }
  | process (e : MyEffect α) (in0 in1 out0 out1 : Nat → α) (numSamples : Nat) :
      Reachable pow e → Reachable pow (e.process pow in0 in1 out0 out1 numSamples).effect

/-- What the constructor establishes and `process` keeps: the buffer size and
sample rate of the constructor, and a write cursor in `[0, iBufferSize]`
(the upper end included). -/
structure WellFormed (e : MyEffect α) : Prop where
  size : e.iBufferSize = 88200
  rate : e.fSR = 44100
  lo : 0 ≤ e.iBufferWritePos
  hi : e.iBufferWritePos ≤ 88200


/-- The states of an effect that has processed at least one sample since its
construction; `v` is the mono mix of the first sample it ever processed.
Before that first sample the host can only have set control values. -/
inductive Started (pow : α → α → α) (v : α) : MyEffect α → Prop
  | first (sampleRate : α) (heap : Int → α) (junk : Int) (noise : Nat → α) (p : Nat → α)
      (in0 in1 out0 out1 : Nat → α) (n : Nat) :
      v = in0 0 + in1 0 →
      Started pow v
        (({ createEffect sampleRate heap junk noise with parameters := p } : MyEffect α).process
          pow in0 in1 out0 out1 (n + 1)).effect
  | setParameters (e : MyEffect α) (p : Nat → α) :
      Started pow v e → Started pow v { e with parameters := p }
  | process (e : MyEffect α) (in0 in1 out0 out1 : Nat → α) (numSamples : Nat) :
      Started pow v e → Started pow v (e.process pow in0 in1 out0 out1 numSamples).effect

/-! ## The mixing stage on floating-point values -/

/-- A floating-point value: a finite value, an infinity with its sign, or a
NaN.  Signed zeros are not distinguished. -/
inductive FloatVal (α : Type) where
  | finite (x : α)
  | infinite (negative : Bool)
  | nan

/-- The largest finite `float`, `(2 - 2^-23) * 2^127`. -/
def FLT_MAX : α := (2 ^ 24 - 1) * 2 ^ 104

/-- The largest finite `double`, `(2 - 2^-52) * 2^1023`. -/
def DBL_MAX : α := (2 ^ 53 - 1) * 2 ^ 971

/-- The value of a floating-point operation whose exact result is `x`, in a
format with largest finite value `max`: a result beyond `max` overflows to an
infinity.  The rounding of a finite result is left out. -/
def FloatVal.ofExact (max x : α) : FloatVal α :=
  if max < x then .infinite false else if x < -max then .infinite true else .finite x

/-- Floating-point multiplication in a format with largest finite value `max`. -/
def FloatVal.mul (max : α) : FloatVal α → FloatVal α → FloatVal α
  | .finite a, .finite b => FloatVal.ofExact max (a * b)
  | .finite a, .infinite s => if a = 0 then .nan else .infinite (xor s (decide (a < 0)))
  | .infinite s, .finite b => if b = 0 then .nan else .infinite (xor s (decide (b < 0)))
  | .infinite s, .infinite t => .infinite (xor s t)
  | .nan, _ => .nan
  | _, .nan => .nan

/-- Floating-point addition in a format with largest finite value `max`. -/
def FloatVal.add (max : α) : FloatVal α → FloatVal α → FloatVal α
  | .finite a, .finite b => FloatVal.ofExact max (a + b)
  | .finite _, .infinite s => .infinite s
  | .infinite s, .finite _ => .infinite s
  | .infinite s, .infinite t => if s = t then .infinite s else .nan
  | .nan, _ => .nan
  | _, .nan => .nan

/-- Floating-point negation. -/
def FloatVal.neg : FloatVal α → FloatVal α
  | .finite a => .finite (-a)
  | .infinite s => .infinite (!s)
  | .nan => .nan

/-- Floating-point subtraction in a format with largest finite value `max`. -/
def FloatVal.sub (max : α) (x y : FloatVal α) : FloatVal α :=
  FloatVal.add max x (FloatVal.neg y)

/-- The comparison `x > 0`; it is false on a NaN. -/
def FloatVal.gtZero : FloatVal α → Bool
  | .finite a => decide (0 < a)
  | .infinite s => !s
  | .nan => false

/-- Conversion of a `double` to `float`. -/
def FloatVal.narrow : FloatVal α → FloatVal α
  | .finite a => FloatVal.ofExact FLT_MAX a
  | .infinite s => .infinite s
  | .nan => .nan

/-- The waveshaper `MyEffect::Trioderizer` on floating-point values:
`input*input` is a `float` product; `-(input*(0.9 * input))` is evaluated in
`double`, `0.9` being a `double` literal, and narrowed by the `return`. -/
def TrioderizerF (input : FloatVal α) : FloatVal α :=
  if input.gtZero then FloatVal.mul FLT_MAX input input
  else
    (FloatVal.neg
      (FloatVal.mul DBL_MAX input (FloatVal.mul DBL_MAX (.finite 0.9) input))).narrow

/-- The waveshaper `MyEffect::Pentoderizer` on floating-point values; `pow` is
the `<cmath>` power function on `double`. -/
def PentoderizerF (pow : FloatVal α → FloatVal α → FloatVal α) (input : FloatVal α) :
    FloatVal α :=
  let out :=
    if input.gtZero then
      (FloatVal.sub DBL_MAX (.finite 1)
        (pow (.finite 10) (FloatVal.mul FLT_MAX (.finite (-1)) input))).narrow
    else (FloatVal.add DBL_MAX (.finite (-1)) (pow (.finite 9) input)).narrow
  (FloatVal.mul DBL_MAX out (.finite 1.111)).narrow

/-- The distortion stage of one iteration of `process` (the `switch`) on
floating-point values: the new value of `fDistortSig`. -/
def distortSample (pow : FloatVal α → FloatVal α → FloatVal α) (c : Controls (FloatVal α))
    (fMix fDelaySig fDistortSig : FloatVal α) : FloatVal α :=
  if c.iDistortType = 0 then
    (FloatVal.mul DBL_MAX (.finite 1.2)
      (TrioderizerF
        (FloatVal.add FLT_MAX fMix (FloatVal.mul FLT_MAX fDelaySig c.fFeedbackGain)))).narrow
  else if c.iDistortType = 1 then
    PentoderizerF pow
      (FloatVal.add FLT_MAX fMix (FloatVal.mul FLT_MAX fDelaySig c.fFeedbackGain))
  else fDistortSig

/-- The output value `fOutTotal` of one iteration of `process` on
floating-point values, from the input pair, the delayed sample read at the
tap, the value of `fDistortSig` before the iteration and the noise sample
`tick` (a `double`, as `StkFloat` is). -/
def mixSample (pow : FloatVal α → FloatVal α → FloatVal α) (c : Controls (FloatVal α))
    (fIn0 fIn1 fDelaySig fDistortSig tick : FloatVal α) : FloatVal α :=
  let fMix := FloatVal.add FLT_MAX fIn0 fIn1
  let fDistortSig := distortSample pow c fMix fDelaySig fDistortSig
  let fHiss :=
    (FloatVal.mul DBL_MAX (FloatVal.mul DBL_MAX tick c.fHissAmount) (.finite 0.015)).narrow
  let fOutTotal :=
    FloatVal.mul FLT_MAX fMix (FloatVal.sub FLT_MAX (.finite 1) c.fDistortionAmount)
  let fOutTotal := FloatVal.add FLT_MAX fOutTotal
    (FloatVal.mul FLT_MAX (FloatVal.mul FLT_MAX fDelaySig c.fFeedbackGain)
      (FloatVal.sub FLT_MAX (.finite 1) c.fDistortionAmount))
  let fOutTotal := FloatVal.add FLT_MAX fOutTotal
    (FloatVal.mul FLT_MAX fDistortSig c.fDistortionAmount)
  FloatVal.add FLT_MAX fOutTotal fHiss

/-- A value a format with largest finite value `max` can hold. -/
def FloatVal.Valid (max : α) : FloatVal α → Prop
  | .finite a => |a| ≤ max
  | .infinite _ => True
  | .nan => True

/-! ## Truncation and the tap resolver -/

theorem le_toInt {a : Int} {x : α} (h : (a : α) ≤ x) : a ≤ toInt x := by
  unfold toInt
  split_ifs
  · exact Int.le_floor.mpr h
  · exact Int.cast_le.mp (h.trans (Int.le_ceil x))

theorem toInt_le {b : Int} {x : α} (h : x ≤ (b : α)) : toInt x ≤ b := by
  unfold toInt
  split_ifs
  · exact Int.cast_le.mp ((Int.floor_le x).trans h)
  · exact Int.ceil_le.mpr h

/-- Truncation of `c - x` for an integer `c`: the offset `x` is rounded up when
`x ≤ c` and rounded down when `c < x`. -/
theorem toInt_intCast_sub (c : Int) (x : α) :
    toInt ((c : α) - x) = if x ≤ (c : α) then c - ⌈x⌉ else c - ⌊x⌋ := by
  unfold toInt
  by_cases h : x ≤ (c : α)
  · rw [if_pos (sub_nonneg.mpr h), if_pos h, sub_eq_add_neg, Int.floor_int_add, Int.floor_neg]
    ring
  · rw [if_neg (by simpa using h), if_neg h, sub_eq_add_neg, add_comm, Int.ceil_add_int,
      Int.ceil_neg]
    ring

/-! ## Rounding to `float` and `double` -/

theorem le_roundNearestEven {z : Int} {y : α} (h : (z : α) ≤ y) : z ≤ roundNearestEven y := by
  have h1 : z ≤ ⌊y⌋ := Int.le_floor.mpr h
  unfold roundNearestEven
  split_ifs <;> omega

theorem roundNearestEven_le {z : Int} {y : α} (h : y ≤ (z : α)) : roundNearestEven y ≤ z := by
  have h1 : ⌊y⌋ ≤ z := Int.cast_le.mp ((Int.floor_le y).trans h)
  unfold roundNearestEven
  by_cases hf : 2 * Int.fract y < 1
  · rw [if_pos hf]; exact h1
  · have hpos : 0 < Int.fract y := by
      have := Int.fract_nonneg y
      rcases this.lt_or_eq with h | h
      · exact h
      · rw [← h] at hf; norm_num at hf
    have hne : (⌊y⌋ : α) < y := by
      have := Int.self_sub_floor y
      linarith
    have hlt : ⌊y⌋ < z := by
      have : (⌊y⌋ : α) < (z : α) := lt_of_lt_of_le hne h
      exact_mod_cast this
    rw [if_neg hf]
    split_ifs <;> omega

theorem roundNearestEven_eq {z : Int} {y : α} (h1 : (z : α) - 1 / 2 < y) (h2 : y < (z : α) + 1 / 2) :
    roundNearestEven y = z := by
  unfold roundNearestEven
  by_cases h : (z : α) ≤ y
  · have hf : ⌊y⌋ = z := Int.floor_eq_iff.mpr ⟨h, by linarith⟩
    have hfr : Int.fract y = y - z := by rw [Int.fract, hf]
    rw [if_pos (by rw [hfr]; linarith), hf]
  · push_neg at h
    have hf : ⌊y⌋ = z - 1 := Int.floor_eq_iff.mpr ⟨by push_cast; linarith, by push_cast; linarith⟩
    have hfr : Int.fract y = y - (z - 1) := by rw [Int.fract, hf]; push_cast; ring
    rw [if_neg (by rw [hfr]; linarith), if_pos (by rw [hfr]; linarith), hf]
    ring

/-- The exponent of a nonzero value between two consecutive powers of two. -/
theorem log_abs_eq {x : α} {e : Int} (h1 : (2 : α) ^ e ≤ |x|) (h2 : |x| < (2 : α) ^ (e + 1)) :
    Int.log 2 |x| = e := by
  have hpos : 0 < |x| := lt_of_lt_of_le (zpow_pos (by norm_num) e) h1
  have a : e ≤ Int.log 2 |x| := (Int.zpow_le_iff_le_log (by norm_num) hpos).mp (by exact_mod_cast h1)
  have b : Int.log 2 |x| < e + 1 := (Int.lt_zpow_iff_log_lt (by norm_num) hpos).mp (by exact_mod_cast h2)
  omega

/-- Evaluation of `roundTo` on a value whose binade is known. -/
theorem roundTo_eq_of_binade (p : Nat) {x : α} {e : Int} (h1 : (2 : α) ^ e ≤ |x|)
    (h2 : |x| < (2 : α) ^ (e + 1)) :
    roundTo p x = (roundNearestEven (x / 2 ^ (e - ((p : Int) - 1))) : α) * 2 ^ (e - ((p : Int) - 1)) := by
  have hx : x ≠ 0 := by
    intro h
    rw [h, abs_zero] at h1
    exact absurd h1 (not_le.mpr (zpow_pos (by norm_num) e))
  unfold roundTo
  rw [if_neg hx, log_abs_eq h1 h2]

/-- Values on a binary grid that the format resolves bound the rounded value from
below and from above: for `|x| < 2 ^ (p - s)`, multiples of `2 ^ (-s)` are
representable. -/
theorem roundTo_grid (p : Nat) (s : Int) {x : α} (hx : |x| < (2 : α) ^ ((p : Int) - s)) (m : Int) :
    ((m : α) * 2 ^ (-s) ≤ x → (m : α) * 2 ^ (-s) ≤ roundTo p x)
    ∧ (x ≤ (m : α) * 2 ^ (-s) → roundTo p x ≤ (m : α) * 2 ^ (-s)) := by
  by_cases h0 : x = 0
  · simp [roundTo, h0]
  have hpos : 0 < |x| := abs_pos.mpr h0
  have hlog : Int.log 2 |x| < (p : Int) - s :=
    (Int.lt_zpow_iff_log_lt (by norm_num) hpos).mp (by exact_mod_cast hx)
  obtain ⟨t, ht⟩ : ∃ t : Nat, (t : Int) = -s - (Int.log 2 |x| - ((p : Int) - 1)) :=
    ⟨(-s - (Int.log 2 |x| - ((p : Int) - 1))).toNat, by omega⟩
  have h2 : (0 : α) < 2 ^ (Int.log 2 |x| - ((p : Int) - 1)) := zpow_pos (by norm_num) _
  have hsplit : (2 : α) ^ (-s) = (2 : α) ^ t * 2 ^ (Int.log 2 |x| - ((p : Int) - 1)) := by
    have : -s = (t : Int) + (Int.log 2 |x| - ((p : Int) - 1)) := by omega
    rw [this, zpow_add₀ (by norm_num : (2 : α) ≠ 0), zpow_natCast]
  unfold roundTo
  rw [if_neg h0]
  dsimp only
  constructor
  · intro h
    rw [hsplit, ← mul_assoc] at h ⊢
    have h3 : ((m * 2 ^ t : Int) : α) ≤ x / 2 ^ (Int.log 2 |x| - ((p : Int) - 1)) := by
      rw [le_div_iff₀ h2]; push_cast; exact h
    have h4 := le_roundNearestEven h3
    have h5 : ((m * 2 ^ t : Int) : α) ≤ (roundNearestEven (x / 2 ^ (Int.log 2 |x| - ((p : Int) - 1))) : α) := by
      exact_mod_cast h4
    push_cast at h5
    exact mul_le_mul_of_nonneg_right h5 h2.le
  · intro h
    rw [hsplit, ← mul_assoc] at h ⊢
    have h3 : x / 2 ^ (Int.log 2 |x| - ((p : Int) - 1)) ≤ ((m * 2 ^ t : Int) : α) := by
      rw [div_le_iff₀ h2]; push_cast; exact h
    have h4 := roundNearestEven_le h3
    have h5 : (roundNearestEven (x / 2 ^ (Int.log 2 |x| - ((p : Int) - 1))) : α) ≤ ((m * 2 ^ t : Int) : α) := by
      exact_mod_cast h4
    push_cast at h5
    exact mul_le_mul_of_nonneg_right h5 h2.le

/-- Multiples of `2 ^ (-s)` bound the rounded value, for `|x| < 2 ^ (p - s)`. -/
theorem roundTo_bounds (p s : Nat) (hs : s ≤ p) {x : α} (hx : |x| < 2 ^ (p - s)) (m : Int) :
    ((m : α) / 2 ^ s ≤ x → (m : α) / 2 ^ s ≤ roundTo p x)
    ∧ (x ≤ (m : α) / 2 ^ s → roundTo p x ≤ (m : α) / 2 ^ s) := by
  have h := roundTo_grid p (s : Int) (x := x)
    (by rw [← Nat.cast_sub hs, zpow_natCast]; exact hx) m
  rwa [zpow_neg, zpow_natCast, ← div_eq_mul_inv] at h

/-- Values on the grid of the format are not changed by rounding. -/
theorem roundTo_eq_self (p s : Nat) (hs : s ≤ p) (m : Int)
    (hx : |(m : α) / 2 ^ s| < 2 ^ (p - s)) : roundTo p ((m : α) / 2 ^ s) = (m : α) / 2 ^ s :=
  le_antisymm ((roundTo_bounds p s hs hx m).2 le_rfl) ((roundTo_bounds p s hs hx m).1 le_rfl)

/-- Values on the grid of `float` are not changed by the rounding to `float`. -/
theorem toFloat_eq_self (s : Nat) (hs : s ≤ 24) (m : Int) {x : α} (hx : x = (m : α) / 2 ^ s)
    (habs : |x| < 2 ^ (24 - s)) : toFloat x = x := by
  subst hx
  exact roundTo_eq_self 24 s hs m habs

theorem intCast_le_toFloat {m : Int} {x : α} (hx : |x| < 16777216) (h : (m : α) ≤ x) :
    (m : α) ≤ toFloat x := by
  have h2 := (roundTo_bounds 24 0 (Nat.zero_le _) (x := x) (by norm_num; exact hx) m).1
  simp only [pow_zero, div_one] at h2
  exact h2 h

theorem toFloat_le_intCast {m : Int} {x : α} (hx : |x| < 16777216) (h : x ≤ (m : α)) :
    toFloat x ≤ (m : α) := by
  have h2 := (roundTo_bounds 24 0 (Nat.zero_le _) (x := x) (by norm_num; exact hx) m).2
  simp only [pow_zero, div_one] at h2
  exact h2 h

/-- Integers below `2 ^ 24` in absolute value are `float` values. -/
theorem toFloat_intCast (m : Int) (h : |m| < 16777216) : toFloat (m : α) = (m : α) := by
  have hx : |(m : α)| < 16777216 := by
    have : ((|m| : Int) : α) < ((16777216 : Int) : α) := Int.cast_lt.mpr h
    simpa using this
  exact le_antisymm (toFloat_le_intCast hx le_rfl) (intCast_le_toFloat hx le_rfl)

theorem toInt_intCast (m : Int) : toInt (m : α) = m := by
  unfold toInt
  split_ifs
  · exact Int.floor_intCast m
  · exact Int.ceil_intCast m

/-- Grid bounds for values of absolute value at most `1`. -/
theorem roundTo_bounds_of_abs_le_one (p s : Nat) (hs : s < p) {x : α} (hx : |x| ≤ 1)
    (m : Int) {a : α} (ha : a = (m : α) / 2 ^ s) :
    (a ≤ x → a ≤ roundTo p x) ∧ (x ≤ a → roundTo p x ≤ a) := by
  subst ha
  exact roundTo_bounds p s hs.le
    (lt_of_le_of_lt hx (one_lt_pow₀ (by norm_num) (by omega))) m

/-- The time control, for a delay-time parameter in `[0, 1]`, lies in
`[1/16, 5/8]` (it is in fact between `0.1f` and `0.4f`). -/
theorem controls_fTime_bounds (e : MyEffect α) (hp0 : 0 ≤ e.parameters 0)
    (hp1 : e.parameters 0 ≤ 1) :
    1 / 16 ≤ e.controls.fTime ∧ e.controls.fTime ≤ 5 / 8 := by
  have c3 : |(0.3 : α)| ≤ 1 := by rw [abs_of_pos (by norm_num)]; norm_num
  have c1 : |(0.1 : α)| ≤ 1 := by rw [abs_of_pos (by norm_num)]; norm_num
  have c3a : (0 : α) ≤ toDouble 0.3 :=
    (roundTo_bounds_of_abs_le_one 53 1 (by norm_num) c3 0 (by norm_num)).1 (by norm_num)
  have c3b : toDouble (0.3 : α) ≤ 1 / 2 :=
    (roundTo_bounds_of_abs_le_one 53 1 (by norm_num) c3 1 (by norm_num)).2 (by norm_num)
  have c1a : (1 / 16 : α) ≤ toDouble 0.1 :=
    (roundTo_bounds_of_abs_le_one 53 4 (by norm_num) c1 1 (by norm_num)).1 (by norm_num)
  have c1b : toDouble (0.1 : α) ≤ 1 / 8 :=
    (roundTo_bounds_of_abs_le_one 53 3 (by norm_num) c1 1 (by norm_num)).2 (by norm_num)
  have a0 : 0 ≤ e.parameters 0 * toDouble 0.3 := mul_nonneg hp0 c3a
  have a1 : e.parameters 0 * toDouble 0.3 ≤ 1 / 2 := by nlinarith
  have aabs : |e.parameters 0 * toDouble 0.3| ≤ 1 := by
    rw [abs_of_nonneg a0]; linarith
  have b0 : (0 : α) ≤ toDouble (e.parameters 0 * toDouble 0.3) :=
    (roundTo_bounds_of_abs_le_one 53 1 (by norm_num) aabs 0 (by norm_num)).1 a0
  have b1 : toDouble (e.parameters 0 * toDouble 0.3) ≤ 1 / 2 :=
    (roundTo_bounds_of_abs_le_one 53 1 (by norm_num) aabs 1 (by norm_num)).2 a1
  have sabs : |toDouble (e.parameters 0 * toDouble 0.3) + toDouble 0.1| ≤ 1 := by
    rw [abs_of_nonneg (by linarith)]; linarith
  have d0 : (1 / 16 : α)
      ≤ toDouble (toDouble (e.parameters 0 * toDouble 0.3) + toDouble 0.1) :=
    (roundTo_bounds_of_abs_le_one 53 4 (by norm_num) sabs 1 (by norm_num)).1 (by linarith)
  have d1 : toDouble (toDouble (e.parameters 0 * toDouble 0.3) + toDouble 0.1)
      ≤ (5 / 8 : α) :=
    (roundTo_bounds_of_abs_le_one 53 3 (by norm_num) sabs 5 (by norm_num)).2 (by linarith)
  have dabs : |toDouble (toDouble (e.parameters 0 * toDouble 0.3) + toDouble 0.1)| ≤ 1 := by
    rw [abs_of_nonneg (by linarith)]; linarith
  exact ⟨(roundTo_bounds_of_abs_le_one 24 4 (by norm_num) dabs 1 (by norm_num)).1 d0,
    (roundTo_bounds_of_abs_le_one 24 3 (by norm_num) dabs 5 (by norm_num)).2 d1⟩

/-- With the sample rate `44100`, a cursor `c` with `|c| ≤ 88200` and a time
in `[1/16, 5/8]`: the conversions of the cursor and the sample rate to `float`
are exact, the `float` product `P` lies in `[2756, 27563]`, and the truncated
`float` difference lies between `c - ceil(P)` and `c - floor(P)`. -/
theorem TapPos_difference_bounds (e : MyEffect α) (hr : e.fSR = 44100)
    (h1 : -88200 ≤ e.iBufferWritePos) (h2 : e.iBufferWritePos ≤ 88200) (t : α)
    (ht1 : 1 / 16 ≤ t) (ht2 : t ≤ 5 / 8) :
    toFloat (e.fSR : α) = 44100
    ∧ toFloat (e.iBufferWritePos : α) = (e.iBufferWritePos : α)
    ∧ (2756 : α) ≤ toFloat (t * 44100) ∧ toFloat (t * 44100) ≤ (27563 : α)
    ∧ e.iBufferWritePos - ⌈toFloat (t * 44100)⌉
        ≤ toInt (toFloat ((e.iBufferWritePos : α) - toFloat (t * 44100)))
    ∧ toInt (toFloat ((e.iBufferWritePos : α) - toFloat (t * 44100)))
        ≤ e.iBufferWritePos - ⌊toFloat (t * 44100)⌋ := by
  have h44 : toFloat (e.fSR : α) = 44100 := by
    rw [hr, toFloat_intCast 44100 (by norm_num)]; norm_num
  have hc : toFloat (e.iBufferWritePos : α) = (e.iBufferWritePos : α) :=
    toFloat_intCast _ (by rw [abs_lt]; constructor <;> omega)
  have hxabs : |t * 44100| < 16777216 := by
    rw [abs_of_nonneg (by linarith)]; linarith
  have hP1 : (2756 : α) ≤ toFloat (t * 44100) := by
    have := intCast_le_toFloat (m := 2756) hxabs (by push_cast; linarith)
    simpa using this
  have hP2 : toFloat (t * 44100) ≤ (27563 : α) := by
    have := toFloat_le_intCast (m := 27563) hxabs (by push_cast; linarith)
    simpa using this
  have hc1 : (-88200 : α) ≤ (e.iBufferWritePos : α) := by exact_mod_cast h1
  have hc2 : (e.iBufferWritePos : α) ≤ 88200 := by exact_mod_cast h2
  have hdabs : |(e.iBufferWritePos : α) - toFloat (t * 44100)| < 16777216 := by
    rw [abs_lt]; constructor <;> linarith
  refine ⟨h44, hc, hP1, hP2, ?_, ?_⟩
  · apply le_toInt
    apply intCast_le_toFloat hdabs
    push_cast
    have := Int.ceil_lt_add_one (toFloat (t * 44100))
    have := Int.le_ceil (toFloat (t * 44100))
    linarith
  · apply toInt_le
    apply toFloat_le_intCast hdabs
    push_cast
    have := Int.floor_le (toFloat (t * 44100))
    linarith

/-- With the constructor's sizes, a cursor in `[1, 88200]` and a time in
`[1/16, 5/8]`, the tap index lies inside the buffer. -/
theorem TapPos_in_bounds (e : MyEffect α) (hs : e.iBufferSize = 88200) (hr : e.fSR = 44100)
    (h1 : 1 ≤ e.iBufferWritePos) (h2 : e.iBufferWritePos ≤ 88200) (t : α)
    (ht1 : 1 / 16 ≤ t) (ht2 : t ≤ 5 / 8) :
    0 ≤ e.TapPos t ∧ e.TapPos t < e.iBufferSize := by
  obtain ⟨h44, hc, hP1, hP2, hlo, hhi⟩ :=
    TapPos_difference_bounds e hr (by omega) h2 t ht1 ht2
  have hf : 2756 ≤ ⌊toFloat (t * 44100)⌋ := Int.le_floor.mpr (by push_cast; exact hP1)
  have hcl : ⌈toFloat (t * 44100)⌉ ≤ 27563 := Int.ceil_le.mpr (by push_cast; exact hP2)
  unfold MyEffect.TapPos
  dsimp only
  rw [h44, hc, hs]
  split_ifs <;> constructor <;> omega


/-- The `float` product `0.1f * 44100` is `4410`. -/
theorem toFloat_tenth_mul_rate :
    toFloat ((13421773 / 134217728 : α) * 44100) = 4410 := by
  unfold toFloat
  rw [roundTo_eq_of_binade 24 (x := (13421773 / 134217728 : α) * 44100) (e := 12)
    (by rw [abs_of_pos (by norm_num)]; norm_num) (by rw [abs_of_pos (by norm_num)]; norm_num)]
  rw [roundNearestEven_eq (z := 9031680) (by norm_num) (by norm_num)]
  norm_num

section Loop

variable (pow : α → α → α) (c : Controls α) (in0 in1 : Nat → α)

theorem processLoop_add (n m : Nat) (l : LoopState α) :
    processLoop pow c in0 in1 (n + m) l
      = processLoop pow c in0 in1 m (processLoop pow c in0 in1 n l) := by
  induction n generalizing l with
  | zero => simp [processLoop]
  | succ n ih =>
    rw [Nat.succ_add]
    simp only [processLoop]
    exact ih _

theorem processLoop_succ_last (n : Nat) (l : LoopState α) :
    processLoop pow c in0 in1 (n + 1) l
      = processSample pow c in0 in1 (processLoop pow c in0 in1 n l) := by
  rw [processLoop_add]
  rfl

@[simp] theorem processSample_iBufferSize (l : LoopState α) :
    (processSample pow c in0 in1 l).effect.iBufferSize = l.effect.iBufferSize := rfl

@[simp] theorem processSample_fSR (l : LoopState α) :
    (processSample pow c in0 in1 l).effect.fSR = l.effect.fSR := rfl

@[simp] theorem processSample_parameters (l : LoopState α) :
    (processSample pow c in0 in1 l).effect.parameters = l.effect.parameters := rfl

@[simp] theorem processSample_hiss (l : LoopState α) :
    (processSample pow c in0 in1 l).effect.hiss = l.effect.hiss := rfl

@[simp] theorem processSample_hissTicks (l : LoopState α) :
    (processSample pow c in0 in1 l).effect.hissTicks = l.effect.hissTicks + 1 := rfl

@[simp] theorem processSample_iBufferWritePos (l : LoopState α) :
    (processSample pow c in0 in1 l).effect.iBufferWritePos
      = advance l.effect.iBufferSize l.effect.iBufferWritePos := rfl

@[simp] theorem processSample_pfCircularBuffer (l : LoopState α) :
    (processSample pow c in0 in1 l).effect.pfCircularBuffer
      = Function.update l.effect.pfCircularBuffer l.effect.iBufferWritePos
          (in0 l.pfInBuffer0 + in1 l.pfInBuffer1) := rfl

@[simp] theorem processSample_pfInBuffer0 (l : LoopState α) :
    (processSample pow c in0 in1 l).pfInBuffer0 = l.pfInBuffer0 + 1 := rfl

@[simp] theorem processSample_pfInBuffer1 (l : LoopState α) :
    (processSample pow c in0 in1 l).pfInBuffer1 = l.pfInBuffer1 + 1 := rfl

@[simp] theorem processSample_pfOutBuffer0 (l : LoopState α) :
    (processSample pow c in0 in1 l).pfOutBuffer0 = l.pfOutBuffer0 + 1 := rfl

@[simp] theorem processSample_pfOutBuffer1 (l : LoopState α) :
    (processSample pow c in0 in1 l).pfOutBuffer1 = l.pfOutBuffer1 + 1 := rfl

/-- The tap index a sample stores is `TapPos` evaluated on the effect it leaves. -/
theorem processSample_iBufferPos (l : LoopState α) :
    (processSample pow c in0 in1 l).effect.iBufferPos
      = (processSample pow c in0 in1 l).effect.TapPos c.fTime := rfl

/-- The delayed sample is read from the buffer as the sample leaves it. -/
theorem processSample_fDelaySig (l : LoopState α) :
    (processSample pow c in0 in1 l).effect.fDelaySig
      = (processSample pow c in0 in1 l).effect.pfCircularBuffer
          ((processSample pow c in0 in1 l).effect.iBufferPos) := rfl

@[simp] theorem processLoop_iBufferSize (n : Nat) (l : LoopState α) :
    (processLoop pow c in0 in1 n l).effect.iBufferSize = l.effect.iBufferSize := by
  induction n generalizing l with
  | zero => rfl
  | succ n ih => simp [processLoop, ih]

@[simp] theorem processLoop_fSR (n : Nat) (l : LoopState α) :
    (processLoop pow c in0 in1 n l).effect.fSR = l.effect.fSR := by
  induction n generalizing l with
  | zero => rfl
  | succ n ih => simp [processLoop, ih]

@[simp] theorem processLoop_parameters (n : Nat) (l : LoopState α) :
    (processLoop pow c in0 in1 n l).effect.parameters = l.effect.parameters := by
  induction n generalizing l with
  | zero => rfl
  | succ n ih => simp [processLoop, ih]

@[simp] theorem processLoop_hiss (n : Nat) (l : LoopState α) :
    (processLoop pow c in0 in1 n l).effect.hiss = l.effect.hiss := by
  induction n generalizing l with
  | zero => rfl
  | succ n ih => simp [processLoop, ih]

@[simp] theorem processLoop_hissTicks (n : Nat) (l : LoopState α) :
    (processLoop pow c in0 in1 n l).effect.hissTicks = l.effect.hissTicks + n := by
  induction n generalizing l with
  | zero => rfl
  | succ n ih => simp [processLoop, ih]; omega

@[simp] theorem processLoop_pfInBuffer0 (n : Nat) (l : LoopState α) :
    (processLoop pow c in0 in1 n l).pfInBuffer0 = l.pfInBuffer0 + n := by
  induction n generalizing l with
  | zero => rfl
  | succ n ih => simp [processLoop, ih]; omega

@[simp] theorem processLoop_pfInBuffer1 (n : Nat) (l : LoopState α) :
    (processLoop pow c in0 in1 n l).pfInBuffer1 = l.pfInBuffer1 + n := by
  induction n generalizing l with
  | zero => rfl
  | succ n ih => simp [processLoop, ih]; omega

@[simp] theorem processLoop_pfOutBuffer0 (n : Nat) (l : LoopState α) :
    (processLoop pow c in0 in1 n l).pfOutBuffer0 = l.pfOutBuffer0 + n := by
  induction n generalizing l with
  | zero => rfl
  | succ n ih => simp [processLoop, ih]; omega

@[simp] theorem processLoop_pfOutBuffer1 (n : Nat) (l : LoopState α) :
    (processLoop pow c in0 in1 n l).pfOutBuffer1 = l.pfOutBuffer1 + n := by
  induction n generalizing l with
  | zero => rfl
  | succ n ih => simp [processLoop, ih]; omega

/-! ## The write cursor -/

/-- Closed form of the cursor after `n ≤ iBufferSize` samples, from a cursor
`w ≤ iBufferSize`. -/
theorem processLoop_iBufferWritePos (n : Nat) (l : LoopState α)
    (h1 : l.effect.iBufferWritePos ≤ l.effect.iBufferSize)
    (hn : (n : Int) ≤ l.effect.iBufferSize) :
    (processLoop pow c in0 in1 n l).effect.iBufferWritePos
      = if l.effect.iBufferWritePos + n ≤ l.effect.iBufferSize
        then l.effect.iBufferWritePos + n
        else l.effect.iBufferWritePos + n - l.effect.iBufferSize := by
  induction n with
  | zero => simp [processLoop, h1]
  | succ n ih =>
    have hn' : (n : Int) ≤ l.effect.iBufferSize := by push_cast at hn; omega
    rw [processLoop_succ_last, processSample_iBufferWritePos, processLoop_iBufferSize, ih hn']
    unfold advance
    push_cast at hn ⊢
    split_ifs <;> omega

/-- The cursor stays in `[0, iBufferSize]`: the upper end is included. -/
theorem processLoop_cursor_range (n : Nat) (l : LoopState α)
    (hN : 0 < l.effect.iBufferSize)
    (h0 : 0 ≤ l.effect.iBufferWritePos)
    (h1 : l.effect.iBufferWritePos ≤ l.effect.iBufferSize) :
    0 ≤ (processLoop pow c in0 in1 n l).effect.iBufferWritePos
      ∧ (processLoop pow c in0 in1 n l).effect.iBufferWritePos ≤ l.effect.iBufferSize := by
  induction n with
  | zero => exact ⟨h0, h1⟩
  | succ n ih =>
    rw [processLoop_succ_last, processSample_iBufferWritePos, processLoop_iBufferSize]
    unfold advance
    dsimp only
    split_ifs <;> omega

theorem processLoop_wellFormed (n : Nat) (l : LoopState α) (h : WellFormed l.effect) :
    WellFormed (processLoop pow c in0 in1 n l).effect := by
  have hr := processLoop_cursor_range pow c in0 in1 n l (by rw [h.size]; norm_num) h.lo
    (by rw [h.size]; exact h.hi)
  rw [h.size] at hr
  exact ⟨by simp [h.size], by simp [h.rate], hr.1, hr.2⟩

/-! ## The delay line -/

theorem processSample_out0 (l : LoopState α) :
    (processSample pow c in0 in1 l).out0
      = Function.update l.out0 l.pfOutBuffer0 (processSample pow c in0 in1 l).fOut0 := rfl

theorem processSample_out1 (l : LoopState α) :
    (processSample pow c in0 in1 l).out1
      = Function.update l.out1 l.pfOutBuffer1 (processSample pow c in0 in1 l).fOut0 := rfl

theorem processSample_fDistortSig (l : LoopState α) :
    (processSample pow c in0 in1 l).fDistortSig
      = if c.iDistortType = 0 then
          1.2 * Trioderizer (in0 l.pfInBuffer0 + in1 l.pfInBuffer1
            + (processSample pow c in0 in1 l).effect.fDelaySig * c.fFeedbackGain)
        else if c.iDistortType = 1 then
          Pentoderizer pow (in0 l.pfInBuffer0 + in1 l.pfInBuffer1
            + (processSample pow c in0 in1 l).effect.fDelaySig * c.fFeedbackGain)
        else l.fDistortSig := rfl

theorem processSample_fOut0 (l : LoopState α) :
    (processSample pow c in0 in1 l).fOut0
      = (in0 l.pfInBuffer0 + in1 l.pfInBuffer1) * (1 - c.fDistortionAmount)
        + ((processSample pow c in0 in1 l).effect.fDelaySig * c.fFeedbackGain)
            * (1 - c.fDistortionAmount)
        + (processSample pow c in0 in1 l).fDistortSig * c.fDistortionAmount
        + (l.effect.hiss l.effect.hissTicks * c.fHissAmount) * 0.015 := rfl

/-- Output sample `k` of a block is the value computed by iteration `k`. -/
theorem processLoop_out0 (n : Nat) (l : LoopState α) (k : Nat) (hk : k < n) :
    (processLoop pow c in0 in1 n l).out0 (l.pfOutBuffer0 + k)
      = (processLoop pow c in0 in1 (k + 1) l).fOut0 := by
  induction n with
  | zero => omega
  | succ n ih =>
    rw [processLoop_succ_last, processSample_out0, processLoop_pfOutBuffer0]
    by_cases h : k = n
    · subst h
      rw [Function.update_same, processLoop_succ_last]
    · rw [Function.update_noteq (by omega)]
      exact ih (by omega)

theorem processLoop_out1 (n : Nat) (l : LoopState α) (k : Nat) (hk : k < n) :
    (processLoop pow c in0 in1 n l).out1 (l.pfOutBuffer1 + k)
      = (processLoop pow c in0 in1 (k + 1) l).fOut0 := by
  induction n with
  | zero => omega
  | succ n ih =>
    rw [processLoop_succ_last, processSample_out1, processLoop_pfOutBuffer1]
    by_cases h : k = n
    · subst h
      rw [Function.update_same, processLoop_succ_last]
    · rw [Function.update_noteq (by omega)]
      exact ih (by omega)

end Loop

omit [FloorRing α] in
theorem createEffect_wellFormed (sampleRate : α) (heap : Int → α) (junk : Int)
    (noise : Nat → α) : WellFormed (createEffect sampleRate heap junk noise) :=
  ⟨by norm_num [createEffect], rfl, by simp [createEffect], by simp [createEffect]⟩

theorem Reachable.wellFormed {pow : α → α → α} {e : MyEffect α} (h : Reachable pow e) :
    WellFormed e := by
  induction h with
  | created sampleRate heap junk noise => exact createEffect_wellFormed _ _ _ _
  | setParameters e p _ ih => exact ⟨ih.size, ih.rate, ih.lo, ih.hi⟩
  | process e in0 in1 out0 out1 n _ ih =>
    exact processLoop_wellFormed pow _ in0 in1 n _ ih

/-- Cursor after `n ≤ 88200` samples of the first pass through the buffer. -/
theorem process_created_iBufferWritePos (pow : α → α → α) (sampleRate : α)
    (heap : Int → α) (junk : Int) (noise : Nat → α) (in0 in1 out0 out1 : Nat → α)
    (n : Nat) (hn : n ≤ 88200) :
    ((createEffect sampleRate heap junk noise).process pow in0 in1 out0 out1 n).effect.iBufferWritePos
      = n := by
  unfold MyEffect.process
  rw [processLoop_iBufferWritePos]
  · simp only [createEffect]
    split_ifs <;> omega
  · simp [createEffect]
  · simp only [createEffect]; omega

/-- Output sample `k` of `process`, both channels, in terms of the samples
read, the delayed sample of iteration `k`, and the value of `fDistortSig`
after iteration `k`. -/
theorem process_out (pow : α → α → α) (e : MyEffect α) (in0 in1 out0 out1 : Nat → α)
    (n k : Nat) (hk : k < n) :
    (e.process pow in0 in1 out0 out1 n).out0 k
      = (in0 k + in1 k) * (1 - e.parameters 2)
        + ((e.process pow in0 in1 out0 out1 (k + 1)).effect.fDelaySig
            * (e.parameters 1 * e.parameters 1)) * (1 - e.parameters 2)
        + (e.process pow in0 in1 out0 out1 (k + 1)).fDistortSig * e.parameters 2
        + (e.hiss (e.hissTicks + k) * e.parameters 3) * 0.015
    ∧ (e.process pow in0 in1 out0 out1 n).out1 k
      = (e.process pow in0 in1 out0 out1 n).out0 k := by
  have h0 := processLoop_out0 pow e.controls in0 in1 n
    { effect := e, pfInBuffer0 := 0, pfInBuffer1 := 0, pfOutBuffer0 := 0, pfOutBuffer1 := 0,
      out0 := out0, out1 := out1, fDistortSig := 0.0, fOut0 := 0, fOut1 := 0 } k hk
  have h1 := processLoop_out1 pow e.controls in0 in1 n
    { effect := e, pfInBuffer0 := 0, pfInBuffer1 := 0, pfOutBuffer0 := 0, pfOutBuffer1 := 0,
      out0 := out0, out1 := out1, fDistortSig := 0.0, fOut0 := 0, fOut1 := 0 } k hk
  simp only [Nat.zero_add] at h0 h1
  unfold MyEffect.process
  rw [h1, h0]
  refine ⟨?_, rfl⟩
  rw [processLoop_succ_last, processSample_fOut0]
  simp [MyEffect.controls]

/-! ## Claims -/

/-- Claim C1, evaluated on the code: from the constructed effect, after 88199
samples the write cursor is `iBufferSize - 1`, and the next write (the
88200th sample) leaves it at `iBufferSize`, not at `0`; the 88201st sample is
then written at offset `iBufferSize`, one past the end of the buffer. -/
theorem write_cursor_reaches_iBufferSize (pow : α → α → α) (sampleRate : α)
    (heap : Int → α) (junk : Int) (noise : Nat → α) (in0 in1 out0 out1 : Nat → α) :
    ((createEffect sampleRate heap junk noise).process pow in0 in1 out0 out1
        88199).effect.iBufferWritePos
      = (createEffect sampleRate heap junk noise).iBufferSize - 1
    ∧ ((createEffect sampleRate heap junk noise).process pow in0 in1 out0 out1
        88200).effect.iBufferWritePos
      = (createEffect sampleRate heap junk noise).iBufferSize
    ∧ ((createEffect sampleRate heap junk noise).process pow in0 in1 out0 out1
        88201).effect.pfCircularBuffer (createEffect sampleRate heap junk noise).iBufferSize
      = in0 88200 + in1 88200 := by
  refine ⟨?_, ?_, ?_⟩
  · rw [process_created_iBufferWritePos _ _ _ _ _ _ _ _ _ _ (by norm_num)]
    norm_num [createEffect]
  · rw [process_created_iBufferWritePos _ _ _ _ _ _ _ _ _ _ (by norm_num)]
    norm_num [createEffect]
  · have h := process_created_iBufferWritePos pow sampleRate heap junk noise in0 in1 out0 out1
      88200 (by norm_num)
    unfold MyEffect.process at h ⊢
    rw [processLoop_succ_last, processSample_pfCircularBuffer, h]
    simp [createEffect]

/-- Claim C2, evaluated on the code: from the constructed effect (cursor `0`),
after exactly `iBufferSize = 88200` writes the cursor is `88200`: it is not
back at its starting value `0`, and it is not `88200 mod iBufferSize`. -/
theorem write_cursor_not_periodic (pow : α → α → α) (sampleRate : α)
    (heap : Int → α) (junk : Int) (noise : Nat → α) (in0 in1 out0 out1 : Nat → α) :
    (createEffect sampleRate heap junk noise).iBufferWritePos = 0
    ∧ ((createEffect sampleRate heap junk noise).process pow in0 in1 out0 out1
        88200).effect.iBufferWritePos = 88200
    ∧ ((createEffect sampleRate heap junk noise).process pow in0 in1 out0 out1
        88200).effect.iBufferWritePos
      ≠ (88200 : Int) % (createEffect sampleRate heap junk noise).iBufferSize := by
  have h := process_created_iBufferWritePos pow sampleRate heap junk noise in0 in1 out0 out1
    88200 (by norm_num)
  refine ⟨rfl, by rw [h]; norm_num, ?_⟩
  rw [h]
  norm_num [createEffect]


/-- Claim C3: in every reachable state, with the delay-time control in
`[0, 1]`, every sample of `process` (the last sample of a block of any length
`n + 1`) resolves its tap with `TapPos(fTime)`, `fTime` being
`parameters[0]*0.3 + 0.1` as `process` evaluates it, to an index in
`[0, iBufferSize)`, and reads the delayed sample at that index. -/
theorem tap_index_in_bounds (pow : α → α → α) (e : MyEffect α) (h : Reachable pow e)
    (hp0 : 0 ≤ e.parameters 0) (hp1 : e.parameters 0 ≤ 1)
    (in0 in1 out0 out1 : Nat → α) (n : Nat) :
    (e.process pow in0 in1 out0 out1 (n + 1)).effect.iBufferPos
      = (e.process pow in0 in1 out0 out1 (n + 1)).effect.TapPos e.controls.fTime
    ∧ 0 ≤ (e.process pow in0 in1 out0 out1 (n + 1)).effect.iBufferPos
    ∧ (e.process pow in0 in1 out0 out1 (n + 1)).effect.iBufferPos
        < (e.process pow in0 in1 out0 out1 (n + 1)).effect.iBufferSize
    ∧ (e.process pow in0 in1 out0 out1 (n + 1)).effect.fDelaySig
        = (e.process pow in0 in1 out0 out1 (n + 1)).effect.pfCircularBuffer
            (e.process pow in0 in1 out0 out1 (n + 1)).effect.iBufferPos := by
  unfold MyEffect.process
  rw [processLoop_succ_last]
  set l := processLoop pow e.controls in0 in1 n _ with hl
  have hw : WellFormed l.effect := processLoop_wellFormed pow _ in0 in1 n _ h.wellFormed
  have hb := TapPos_in_bounds (processSample pow e.controls in0 in1 l).effect
    (by simp [hw.size]) (by simp [hw.rate])
    (by
      rw [processSample_iBufferWritePos, hw.size]
      have := hw.lo
      have := hw.hi
      unfold advance
      dsimp only
      split_ifs <;> omega)
    (by
      rw [processSample_iBufferWritePos, hw.size]
      have := hw.lo
      have := hw.hi
      unfold advance
      dsimp only
      split_ifs <;> omega)
    e.controls.fTime (controls_fTime_bounds e hp0 hp1).1 (controls_fTime_bounds e hp0 hp1).2
  refine ⟨rfl, ?_, ?_, rfl⟩
  · rw [processSample_iBufferPos]; exact hb.1
  · rw [processSample_iBufferPos]; exact hb.2

/-- Witness for C3: the constructed effect (delay-time control `0`), first
sample of a block. -/
theorem tap_index_in_bounds_witness :
    Reachable (fun _ _ => (0 : ℚ)) (createEffect (44100 : ℚ) (fun _ => 0) 0 (fun _ => 0))
    ∧ 0 ≤ ((createEffect (44100 : ℚ) (fun _ => 0) 0 (fun _ => 0)).process (fun _ _ => 0)
        (fun _ => 1) (fun _ => 1) (fun _ => 0) (fun _ => 0) (0 + 1)).effect.iBufferPos
    ∧ ((createEffect (44100 : ℚ) (fun _ => 0) 0 (fun _ => 0)).process (fun _ _ => 0)
        (fun _ => 1) (fun _ => 1) (fun _ => 0) (fun _ => 0) (0 + 1)).effect.iBufferPos
      < ((createEffect (44100 : ℚ) (fun _ => 0) 0 (fun _ => 0)).process (fun _ _ => 0)
        (fun _ => 1) (fun _ => 1) (fun _ => 0) (fun _ => 0) (0 + 1)).effect.iBufferSize :=
  ⟨Reachable.created _ _ _ _,
    (tap_index_in_bounds (fun _ _ => (0 : ℚ)) (createEffect (44100 : ℚ) (fun _ => 0) 0 (fun _ => 0))
      (Reachable.created _ _ _ _) (by simp [createEffect]) (by simp [createEffect])
      (fun _ => 1) (fun _ => 1) (fun _ => 0) (fun _ => 0) 0).2.1,
    (tap_index_in_bounds (fun _ _ => (0 : ℚ)) (createEffect (44100 : ℚ) (fun _ => 0) 0 (fun _ => 0))
      (Reachable.created _ _ _ _) (by simp [createEffect]) (by simp [createEffect])
      (fun _ => 1) (fun _ => 1) (fun _ => 0) (fun _ => 0) 0).2.2.1⟩

/-- Claim C4 fails as stated: with the write cursor at `20000` (the constructed
effect after 20000 samples) and `t = 1027/4096` seconds (about `0.2507`, so
`t * 44100 = 11057.2998...`, a `float` value), `TapPos(t)` is `8942`, while
`c - round(t * 44100) = 20000 - 11057 = 8943`. -/
theorem TapPos_ne_cursor_sub_round :
    ((createEffect (44100 : ℚ) (fun _ => 0) 0 (fun _ => 0)).process (fun _ _ => 0)
        (fun _ => 0) (fun _ => 0) (fun _ => 0) (fun _ => 0) 20000).effect.iBufferWritePos = 20000
    ∧ ((0.1 : ℚ) ≤ 1027 / 4096 ∧ (1027 / 4096 : ℚ) ≤ 0.4)
    ∧ ((createEffect (44100 : ℚ) (fun _ => 0) 0 (fun _ => 0)).process (fun _ _ => 0)
        (fun _ => 0) (fun _ => 0) (fun _ => 0) (fun _ => 0) 20000).effect.TapPos (1027 / 4096)
        = 8942
    ∧ (0 : Int) ≤ 20000 - round ((1027 / 4096 : ℚ) * 44100)
    ∧ (20000 : Int) - round ((1027 / 4096 : ℚ) * 44100) = 8943 := by
  have hc := process_created_iBufferWritePos (fun _ _ => (0 : ℚ)) (44100 : ℚ) (fun _ => 0) 0
    (fun _ => 0) (fun _ => 0) (fun _ => 0) (fun _ => 0) (fun _ => 0) 20000 (by norm_num)
  have hround : round ((1027 / 4096 : ℚ) * 44100) = 11057 := by
    rw [round_eq, Int.floor_eq_iff]; norm_num
  refine ⟨hc, by norm_num, ?_, ?_, ?_⟩
  · have hr : ((createEffect (44100 : ℚ) (fun _ => 0) 0 (fun _ => 0)).process (fun _ _ => 0)
        (fun _ => 0) (fun _ => 0) (fun _ => 0) (fun _ => 0) 20000).effect.fSR = 44100 := by
      simp [MyEffect.process, createEffect]
    have h1 : toFloat (((44100 : Int) : ℚ)) = 44100 := by
      rw [toFloat_intCast 44100 (by norm_num)]; norm_num
    have h2 : toFloat ((((20000 : Nat) : Int) : ℚ)) = 20000 := by
      rw [toFloat_intCast _ (by norm_num)]; norm_num
    have h3 : toFloat ((1027 / 4096 : ℚ) * 44100) = 11322675 / 1024 :=
      (toFloat_eq_self 10 (by norm_num) 11322675 (by norm_num)
        (by rw [abs_of_pos (by norm_num)]; norm_num)).trans (by norm_num)
    have h4 : toFloat ((20000 : ℚ) - 11322675 / 1024) = 9157325 / 1024 :=
      (toFloat_eq_self 10 (by norm_num) 9157325 (by norm_num)
        (by rw [abs_of_pos (by norm_num)]; norm_num)).trans (by norm_num)
    have h5 : toInt (9157325 / 1024 : ℚ) = 8942 := by
      unfold toInt
      rw [if_pos (by norm_num), Int.floor_eq_iff]
      norm_num
    unfold MyEffect.TapPos
    dsimp only
    rw [hc, hr, h1, h2, h3, h4, h5]
    norm_num
  · rw [hround]; norm_num
  · rw [hround]; norm_num

/-- Claim C4, amended: with the sample rate `44100`, a write cursor `c` in
`[0, iBufferSize)` of the constructor's buffer and a time `t` in `[0.1, 0.4]`,
`TapPos(t)` is the `float` difference of `c` and the `float` product
`P = t * 44100`, truncated toward zero, plus the capacity exactly once when
that is negative.  The truncated difference lies between `c - ceil(P)` and
`c - floor(P)`; it is not `c - round(t * 44100)` in general.  When `P` is an
integer `D` (as for `t = 0.1f`, where `P = 4410`) the result is `c - D`, plus
the capacity once when negative. -/
theorem TapPos_eq_truncated_difference (e : MyEffect α) (t : α) (hr : e.fSR = 44100)
    (hs : e.iBufferSize = 88200) (hc0 : 0 ≤ e.iBufferWritePos)
    (hc1 : e.iBufferWritePos < e.iBufferSize) (ht0 : 0.1 ≤ t) (ht1 : t ≤ 0.4) :
    (e.TapPos t
      = if toInt (toFloat ((e.iBufferWritePos : α) - toFloat (t * 44100))) < 0
        then toInt (toFloat ((e.iBufferWritePos : α) - toFloat (t * 44100))) + e.iBufferSize
        else toInt (toFloat ((e.iBufferWritePos : α) - toFloat (t * 44100))))
    ∧ (e.iBufferWritePos - ⌈toFloat (t * 44100)⌉
        ≤ toInt (toFloat ((e.iBufferWritePos : α) - toFloat (t * 44100)))
      ∧ toInt (toFloat ((e.iBufferWritePos : α) - toFloat (t * 44100)))
        ≤ e.iBufferWritePos - ⌊toFloat (t * 44100)⌋)
    ∧ ∀ D : Int, toFloat (t * 44100) = (D : α) →
        e.TapPos t
          = if e.iBufferWritePos - D < 0 then e.iBufferWritePos - D + e.iBufferSize
            else e.iBufferWritePos - D := by
  obtain ⟨h44, hc, hP1, hP2, hlo, hhi⟩ :=
    TapPos_difference_bounds e hr (by omega) (by omega) t
      (by norm_num at ht0 ⊢; linarith) (by norm_num at ht1 ⊢; linarith)
  have key : e.TapPos t
      = if toInt (toFloat ((e.iBufferWritePos : α) - toFloat (t * 44100))) < 0
        then toInt (toFloat ((e.iBufferWritePos : α) - toFloat (t * 44100))) + e.iBufferSize
        else toInt (toFloat ((e.iBufferWritePos : α) - toFloat (t * 44100))) := by
    unfold MyEffect.TapPos
    dsimp only
    rw [h44, hc]
  refine ⟨key, ⟨hlo, hhi⟩, ?_⟩
  intro D hD
  rw [hD] at hP1 hP2
  have hD1 : (2756 : Int) ≤ D := by exact_mod_cast hP1
  have hD2 : D ≤ (27563 : Int) := by exact_mod_cast hP2
  have hdiff : (e.iBufferWritePos : α) - (D : α) = ((e.iBufferWritePos - D : Int) : α) := by
    push_cast; ring
  rw [key, hD, hdiff, toFloat_intCast _ (by rw [abs_lt]; constructor <;> omega), toInt_intCast]

/-- Witness for C4 (amended): cursor `20000`, `t = 0.1f`, where the `float`
product is `4410` and the tap index `15590`. -/
theorem TapPos_eq_truncated_difference_witness :
    ({ createEffect (44100 : ℚ) (fun _ => 0) 0 (fun _ => 0) with
        iBufferWritePos := 20000 } : MyEffect ℚ).fSR = 44100
    ∧ ((0.1 : ℚ) ≤ 13421773 / 134217728 ∧ (13421773 / 134217728 : ℚ) ≤ 0.4)
    ∧ toFloat ((13421773 / 134217728 : ℚ) * 44100) = ((4410 : Int) : ℚ)
    ∧ ({ createEffect (44100 : ℚ) (fun _ => 0) 0 (fun _ => 0) with
        iBufferWritePos := 20000 } : MyEffect ℚ).TapPos (13421773 / 134217728)
      = if (20000 : Int) - 4410 < 0 then 20000 - 4410 + 2 * 44100 else 20000 - 4410 :=
  have hP : toFloat ((13421773 / 134217728 : ℚ) * 44100) = ((4410 : Int) : ℚ) := by
    rw [toFloat_tenth_mul_rate]; norm_num
  ⟨rfl, ⟨by norm_num, by norm_num⟩, hP,
    (TapPos_eq_truncated_difference
      ({ createEffect (44100 : ℚ) (fun _ => 0) 0 (fun _ => 0) with
          iBufferWritePos := 20000 } : MyEffect ℚ) (13421773 / 134217728) rfl
      (by norm_num [createEffect]) (by norm_num) (by norm_num [createEffect])
      (by norm_num) (by norm_num)).2.2 4410 hP⟩

/-- With feedback, distortion amount and hiss amount at `0`, `process` copies
the mono mix of the input to both outputs, whatever the delay line holds. -/
theorem process_out_of_zero_controls (pow : α → α → α) (e : MyEffect α)
    (h1 : e.parameters 1 = 0) (h2 : e.parameters 2 = 0) (h3 : e.parameters 3 = 0)
    (in0 in1 out0 out1 : Nat → α) (n k : Nat) (hk : k < n) :
    (e.process pow in0 in1 out0 out1 n).out0 k = in0 k + in1 k
    ∧ (e.process pow in0 in1 out0 out1 n).out1 k = in0 k + in1 k := by
  obtain ⟨ha, hb⟩ := process_out pow e in0 in1 out0 out1 n k hk
  rw [hb, ha, h1, h2, h3]
  simp

/-- Claim C6 fails as stated: on the constructed effect (all controls `0`)
with a unit impulse on both inputs at sample 0, a block of 4411 samples has
output `1 + 1 = 2` at index `0` (not `0`) and output `0` at index `4410`
(not the impulse mix), on both channels. -/
theorem impulse_output_is_not_delayed :
    ((createEffect (44100 : ℚ) (fun _ => 0) 0 (fun _ => 0)).process (fun _ _ => 0)
        (fun k => if k = 0 then 1 else 0) (fun k => if k = 0 then 1 else 0)
        (fun _ => 0) (fun _ => 0) 4411).out0 0 = 2
    ∧ ((createEffect (44100 : ℚ) (fun _ => 0) 0 (fun _ => 0)).process (fun _ _ => 0)
        (fun k => if k = 0 then 1 else 0) (fun k => if k = 0 then 1 else 0)
        (fun _ => 0) (fun _ => 0) 4411).out1 0 = 2
    ∧ ((createEffect (44100 : ℚ) (fun _ => 0) 0 (fun _ => 0)).process (fun _ _ => 0)
        (fun k => if k = 0 then 1 else 0) (fun k => if k = 0 then 1 else 0)
        (fun _ => 0) (fun _ => 0) 4411).out0 4410 = 0
    ∧ ((createEffect (44100 : ℚ) (fun _ => 0) 0 (fun _ => 0)).process (fun _ _ => 0)
        (fun k => if k = 0 then 1 else 0) (fun k => if k = 0 then 1 else 0)
        (fun _ => 0) (fun _ => 0) 4411).out1 4410 = 0 := by
  have a := process_out_of_zero_controls (fun _ _ => (0 : ℚ))
    (createEffect (44100 : ℚ) (fun _ => 0) 0 (fun _ => 0)) rfl rfl rfl
    (fun k => if k = 0 then 1 else 0) (fun k => if k = 0 then 1 else 0)
    (fun _ => 0) (fun _ => 0) 4411 0 (by norm_num)
  have b := process_out_of_zero_controls (fun _ _ => (0 : ℚ))
    (createEffect (44100 : ℚ) (fun _ => 0) 0 (fun _ => 0)) rfl rfl rfl
    (fun k => if k = 0 then 1 else 0) (fun k => if k = 0 then 1 else 0)
    (fun _ => 0) (fun _ => 0) 4411 4410 (by norm_num)
  refine ⟨?_, ?_, ?_, ?_⟩
  · rw [a.1]; norm_num
  · rw [a.2]; norm_num
  · rw [b.1]; norm_num
  · rw [b.2]; norm_num

/-- Claim C6, amended: on the freshly constructed effect with
`parameters[0..3] = 0` (any distortion type) and a unit impulse on both inputs
at sample 0, every output sample `k` of a block, on both channels, is the
impulse mix `1 + 1` for `k = 0` and `0` for every later index: the dry mix
passes undelayed and the delayed impulse is multiplied by the feedback
gain `0`. -/
theorem impulse_output_is_dry_mix (pow : α → α → α) (sampleRate : α) (heap : Int → α)
    (junk : Int) (noise : Nat → α) (p : Nat → α)
    (h0 : p 0 = 0) (h1 : p 1 = 0) (h2 : p 2 = 0) (h3 : p 3 = 0)
    (out0 out1 : Nat → α) (n k : Nat) (hk : k < n) :
    (({ createEffect sampleRate heap junk noise with parameters := p } : MyEffect α).process pow
        (fun i => if i = 0 then 1 else 0) (fun i => if i = 0 then 1 else 0)
        out0 out1 n).out0 k = (if k = 0 then 1 + 1 else 0)
    ∧ (({ createEffect sampleRate heap junk noise with parameters := p } : MyEffect α).process pow
        (fun i => if i = 0 then 1 else 0) (fun i => if i = 0 then 1 else 0)
        out0 out1 n).out1 k = (if k = 0 then 1 + 1 else 0) := by
  have _ := h0
  obtain ⟨a, b⟩ := process_out_of_zero_controls pow
    ({ createEffect sampleRate heap junk noise with parameters := p } : MyEffect α) h1 h2 h3
    (fun i => if i = 0 then 1 else 0) (fun i => if i = 0 then 1 else 0) out0 out1 n k hk
  rw [a, b]
  by_cases h : k = 0 <;> simp [h]

/-- Witness for C6 (amended): the constructed effect, a block of 3 samples,
output index 2. -/
theorem impulse_output_is_dry_mix_witness :
    ((2 : Nat) < 3)
    ∧ (({ createEffect (44100 : ℚ) (fun _ => 0) 0 (fun _ => 0) with
          parameters := fun _ => 0 } : MyEffect ℚ).process (fun _ _ => 0)
        (fun i => if i = 0 then 1 else 0) (fun i => if i = 0 then 1 else 0)
        (fun _ => 0) (fun _ => 0) 3).out0 2 = (if (2 : Nat) = 0 then 1 + 1 else 0) :=
  ⟨by norm_num,
    (impulse_output_is_dry_mix (fun _ _ => (0 : ℚ)) 44100 (fun _ => 0) 0 (fun _ => 0)
      (fun _ => 0) rfl rfl rfl rfl (fun _ => 0) (fun _ => 0) 3 2 (by norm_num)).1⟩

/-- Claim C7: for every sample `k` of a block and a distortion type of `0` or
`1`, both output channels get the same value
`m*(1 - d) + y*g*(1 - d) + d*S(m + y*g) + 0.015*h*n`, with `m = in0 + in1`,
`y` the delayed sample read at the tap in that iteration, `g = parameters[1]^2`,
`d = parameters[2]`, `h = parameters[3]`, `n` the noise sample of that
iteration, and `S = 1.2 * Trioderizer` for type `0`, `S = Pentoderizer` for
type `1`. -/
theorem output_sample_formula (pow : α → α → α) (e : MyEffect α)
    (in0 in1 out0 out1 : Nat → α) (n k : Nat) (hk : k < n)
    (hsel : toInt (e.parameters 4) = 0 ∨ toInt (e.parameters 4) = 1) :
    (e.process pow in0 in1 out0 out1 n).out0 k
      = (in0 k + in1 k) * (1 - e.parameters 2)
        + (e.process pow in0 in1 out0 out1 (k + 1)).effect.fDelaySig * (e.parameters 1) ^ 2
            * (1 - e.parameters 2)
        + e.parameters 2
            * (if toInt (e.parameters 4) = 0 then
                1.2 * Trioderizer ((in0 k + in1 k)
                  + (e.process pow in0 in1 out0 out1 (k + 1)).effect.fDelaySig
                      * (e.parameters 1) ^ 2)
              else
                Pentoderizer pow ((in0 k + in1 k)
                  + (e.process pow in0 in1 out0 out1 (k + 1)).effect.fDelaySig
                      * (e.parameters 1) ^ 2))
        + 0.015 * e.parameters 3 * e.hiss (e.hissTicks + k)
    ∧ (e.process pow in0 in1 out0 out1 n).out1 k
      = (e.process pow in0 in1 out0 out1 n).out0 k := by
  obtain ⟨ha, hb⟩ := process_out pow e in0 in1 out0 out1 n k hk
  refine ⟨?_, hb⟩
  rw [ha]
  have hd : (e.process pow in0 in1 out0 out1 (k + 1)).fDistortSig
      = if toInt (e.parameters 4) = 0 then
          1.2 * Trioderizer ((in0 k + in1 k)
            + (e.process pow in0 in1 out0 out1 (k + 1)).effect.fDelaySig
                * (e.parameters 1) ^ 2)
        else
          Pentoderizer pow ((in0 k + in1 k)
            + (e.process pow in0 in1 out0 out1 (k + 1)).effect.fDelaySig
                * (e.parameters 1) ^ 2) := by
    unfold MyEffect.process
    rw [processLoop_succ_last, processSample_fDistortSig]
    simp only [processLoop_pfInBuffer0, processLoop_pfInBuffer1, Nat.zero_add, pow_two]
    rcases hsel with h | h
    · simp [MyEffect.controls, h]
    · simp [MyEffect.controls, h]
  rw [hd]
  ring

/-- Witness for C7: the constructed effect (distortion type `0`), first sample
of a one-sample block with inputs `1` and `1`. -/
theorem output_sample_formula_witness :
    ((0 : Nat) < 1)
    ∧ toInt ((createEffect (44100 : ℚ) (fun _ => 0) 0 (fun _ => 0)).parameters 4) = 0
    ∧ ((createEffect (44100 : ℚ) (fun _ => 0) 0 (fun _ => 0)).process (fun _ _ => 0)
        (fun _ => 1) (fun _ => 1) (fun _ => 0) (fun _ => 0) 1).out1 0
      = ((createEffect (44100 : ℚ) (fun _ => 0) 0 (fun _ => 0)).process (fun _ _ => 0)
        (fun _ => 1) (fun _ => 1) (fun _ => 0) (fun _ => 0) 1).out0 0 :=
  have hsel : toInt ((createEffect (44100 : ℚ) (fun _ => 0) 0 (fun _ => 0)).parameters 4) = 0 := by
    simp [createEffect, toInt]
  ⟨by norm_num, hsel,
    (output_sample_formula (fun _ _ => (0 : ℚ))
      (createEffect (44100 : ℚ) (fun _ => 0) 0 (fun _ => 0))
      (fun _ => 1) (fun _ => 1) (fun _ => 0) (fun _ => 0) 1 0 (by norm_num) (Or.inl hsel)).2⟩

/-- Claim C8: on every real input `x`, `Trioderizer(x) = x*x` when `x > 0` and
`Trioderizer(x) = -(0.9*x*x)` when `x ≤ 0`; so `Trioderizer(0) = 0`, the output
is positive for `x > 0` and non-positive for `x ≤ 0`. -/
theorem Trioderizer_spec (x : ℝ) :
    (0 < x → Trioderizer x = x * x)
    ∧ (x ≤ 0 → Trioderizer x = -(0.9 * x * x))
    ∧ Trioderizer (0 : ℝ) = 0
    ∧ (0 < x → 0 < Trioderizer x)
    ∧ (x ≤ 0 → Trioderizer x ≤ 0) := by
  refine ⟨?_, ?_, ?_, ?_, ?_⟩
  · intro h
    simp [Trioderizer, h]
  · intro h
    rw [Trioderizer, if_neg (not_lt.mpr h)]
    ring
  · simp [Trioderizer]
  · intro h
    rw [Trioderizer, if_pos h]
    exact mul_pos h h
  · intro h
    rw [Trioderizer, if_neg (not_lt.mpr h)]
    have : 0 ≤ x * (0.9 * x) := by nlinarith [mul_self_nonneg x]
    linarith

/-- Claim C9: on every real input `x`, with `pow` the real power function,
`Pentoderizer(x) = 1.111 * (1 - 10^(-x))` when `x > 0` and
`Pentoderizer(x) = 1.111 * (-1 + 9^x)` when `x ≤ 0`. -/
theorem Pentoderizer_spec (x : ℝ) :
    (0 < x → Pentoderizer Real.rpow x = 1.111 * (1 - (10 : ℝ) ^ (-x)))
    ∧ (x ≤ 0 → Pentoderizer Real.rpow x = 1.111 * (-1 + (9 : ℝ) ^ x)) := by
  constructor
  · intro h
    simp only [Pentoderizer, if_pos h, neg_one_mul, Real.rpow_eq_pow]
    ring
  · intro h
    simp only [Pentoderizer, if_neg (not_lt.mpr h), Real.rpow_eq_pow]
    ring

/-- Claim C10: on every real input `x`, with `pow` the real power function,
`-1.111 < Pentoderizer(x) < 1.111`. -/
theorem Pentoderizer_bounded (x : ℝ) :
    -1.111 < Pentoderizer Real.rpow x ∧ Pentoderizer Real.rpow x < 1.111 := by
  by_cases h : 0 < x
  · have h1 : (0 : ℝ) < (10 : ℝ) ^ (-x) := Real.rpow_pos_of_pos (by norm_num) _
    have h2 : (10 : ℝ) ^ (-x) < 1 :=
      Real.rpow_lt_one_of_one_lt_of_neg (by norm_num) (by linarith)
    simp only [Pentoderizer, if_pos h, neg_one_mul, Real.rpow_eq_pow]
    constructor <;> norm_num <;> nlinarith
  · have hx : x ≤ 0 := not_lt.mp h
    have h1 : (0 : ℝ) < (9 : ℝ) ^ x := Real.rpow_pos_of_pos (by norm_num) _
    have h2 : (9 : ℝ) ^ x ≤ 1 := Real.rpow_le_one_of_one_le_of_nonpos (by norm_num) hx
    simp only [Pentoderizer, if_neg h, Real.rpow_eq_pow]
    constructor <;> norm_num <;> nlinarith

/-! ## Two runs compared -/

/-- One iteration on two loop states with the same effect that read the same
input pair: the effects and the output value agree afterwards.  The old value
of `fDistortSig` matters only for a distortion type other than `0` and `1`. -/
theorem processSample_congr (pow : α → α → α) (c : Controls α) (in0 in1 in0' in1' : Nat → α)
    (l l' : LoopState α) (he : l.effect = l'.effect)
    (h0 : in0 l.pfInBuffer0 = in0' l'.pfInBuffer0)
    (h1 : in1 l.pfInBuffer1 = in1' l'.pfInBuffer1)
    (hd : c.iDistortType = 0 ∨ c.iDistortType = 1 ∨ l.fDistortSig = l'.fDistortSig) :
    (processSample pow c in0 in1 l).effect = (processSample pow c in0' in1' l').effect
    ∧ (processSample pow c in0 in1 l).fOut0 = (processSample pow c in0' in1' l').fOut0
    ∧ (processSample pow c in0 in1 l).fDistortSig
        = (processSample pow c in0' in1' l').fDistortSig := by
  unfold processSample
  dsimp only
  rw [he, h0, h1]
  rcases hd with h | h | h
  · simp [h]
  · by_cases h2 : c.iDistortType = 0
    · simp [h2]
    · simp [h]
  · simp [h]

/-- A run of `n` iterations on two loop states with the same effect whose
input pointers see the same `n` input pairs: after every `j ≤ n` iterations the
effects agree, and so do the output value and `fDistortSig` once `j ≥ 1`. -/
theorem processLoop_congr (pow : α → α → α) (c : Controls α) (in0 in1 in0' in1' : Nat → α)
    (n : Nat) (l l' : LoopState α) (he : l.effect = l'.effect)
    (h0 : ∀ i, i < n → in0 (l.pfInBuffer0 + i) = in0' (l'.pfInBuffer0 + i))
    (h1 : ∀ i, i < n → in1 (l.pfInBuffer1 + i) = in1' (l'.pfInBuffer1 + i))
    (hd : c.iDistortType = 0 ∨ c.iDistortType = 1 ∨ l.fDistortSig = l'.fDistortSig)
    (j : Nat) (hj : j ≤ n) :
    (processLoop pow c in0 in1 j l).effect = (processLoop pow c in0' in1' j l').effect
    ∧ (c.iDistortType = 0 ∨ c.iDistortType = 1
        ∨ (processLoop pow c in0 in1 j l).fDistortSig
            = (processLoop pow c in0' in1' j l').fDistortSig)
    ∧ (0 < j → (processLoop pow c in0 in1 j l).fOut0
        = (processLoop pow c in0' in1' j l').fOut0) := by
  induction j with
  | zero => exact ⟨he, hd, fun h => absurd h (lt_irrefl 0)⟩
  | succ j ih =>
    obtain ⟨ie, id, _⟩ := ih (by omega)
    have hs := processSample_congr pow c in0 in1 in0' in1'
      (processLoop pow c in0 in1 j l) (processLoop pow c in0' in1' j l') ie
      (by simpa using h0 j (by omega)) (by simpa using h1 j (by omega)) id
    rw [processLoop_succ_last, processLoop_succ_last]
    exact ⟨hs.1, Or.inr (Or.inr hs.2.2), fun _ => hs.2.1⟩

/-- A run leaves the output buffers alone outside the `n` elements from the
output pointers on. -/
theorem processLoop_out_of_not_mem (pow : α → α → α) (c : Controls α) (in0 in1 : Nat → α)
    (n : Nat) (l : LoopState α) :
    (∀ i, (i < l.pfOutBuffer0 ∨ l.pfOutBuffer0 + n ≤ i) →
        (processLoop pow c in0 in1 n l).out0 i = l.out0 i)
    ∧ (∀ i, (i < l.pfOutBuffer1 ∨ l.pfOutBuffer1 + n ≤ i) →
        (processLoop pow c in0 in1 n l).out1 i = l.out1 i) := by
  induction n with
  | zero => exact ⟨fun _ _ => rfl, fun _ _ => rfl⟩
  | succ n ih =>
    rw [processLoop_succ_last, processSample_out0, processSample_out1,
      processLoop_pfOutBuffer0, processLoop_pfOutBuffer1]
    constructor
    · intro i hi
      rw [Function.update_noteq (by omega)]
      exact ih.1 i (by omega)
    · intro i hi
      rw [Function.update_noteq (by omega)]
      exact ih.2 i (by omega)

/-- With a distortion type other than `0` and `1` the loop never assigns
`fDistortSig`. -/
theorem processLoop_fDistortSig_of_default (pow : α → α → α) (c : Controls α)
    (in0 in1 : Nat → α) (h0 : c.iDistortType ≠ 0) (h1 : c.iDistortType ≠ 1)
    (n : Nat) (l : LoopState α) :
    (processLoop pow c in0 in1 n l).fDistortSig = l.fDistortSig := by
  induction n with
  | zero => rfl
  | succ n ih =>
    rw [processLoop_succ_last, processSample_fDistortSig, if_neg h0, if_neg h1, ih]

/-- The delay line is fed forward: what a run leaves in the buffer and where it
leaves the cursor depends on the buffer, the cursor and the input read, not on
the controls, the noise or the power function. -/
theorem processLoop_buffer_congr (pow pow' : α → α → α) (c c' : Controls α)
    (in0 in1 : Nat → α) (n : Nat) (l l' : LoopState α)
    (hs : l.effect.iBufferSize = l'.effect.iBufferSize)
    (hw : l.effect.iBufferWritePos = l'.effect.iBufferWritePos)
    (hb : l.effect.pfCircularBuffer = l'.effect.pfCircularBuffer)
    (h0 : l.pfInBuffer0 = l'.pfInBuffer0) (h1 : l.pfInBuffer1 = l'.pfInBuffer1) :
    (processLoop pow c in0 in1 n l).effect.iBufferWritePos
      = (processLoop pow' c' in0 in1 n l').effect.iBufferWritePos
    ∧ (processLoop pow c in0 in1 n l).effect.pfCircularBuffer
      = (processLoop pow' c' in0 in1 n l').effect.pfCircularBuffer := by
  induction n generalizing l l' with
  | zero => exact ⟨hw, hb⟩
  | succ n ih =>
    simp only [processLoop]
    exact ih _ _ (by simp [hs]) (by simp [hs, hw]) (by simp [hw, hb, h0, h1])
      (by simp [h0]) (by simp [h1])

/-- The tap (its index and the delayed sample) depends, besides the delay
line, only on the time control. -/
theorem processLoop_tap_congr (pow pow' : α → α → α) (c c' : Controls α)
    (ht : c.fTime = c'.fTime) (in0 in1 : Nat → α) (n : Nat) (l l' : LoopState α)
    (hs : l.effect.iBufferSize = l'.effect.iBufferSize)
    (hr : l.effect.fSR = l'.effect.fSR)
    (hw : l.effect.iBufferWritePos = l'.effect.iBufferWritePos)
    (hb : l.effect.pfCircularBuffer = l'.effect.pfCircularBuffer)
    (hp : l.effect.iBufferPos = l'.effect.iBufferPos)
    (hy : l.effect.fDelaySig = l'.effect.fDelaySig)
    (h0 : l.pfInBuffer0 = l'.pfInBuffer0) (h1 : l.pfInBuffer1 = l'.pfInBuffer1) :
    (processLoop pow c in0 in1 n l).effect.iBufferPos
      = (processLoop pow' c' in0 in1 n l').effect.iBufferPos
    ∧ (processLoop pow c in0 in1 n l).effect.fDelaySig
      = (processLoop pow' c' in0 in1 n l').effect.fDelaySig := by
  induction n generalizing l l' with
  | zero => exact ⟨hp, hy⟩
  | succ n ih =>
    simp only [processLoop]
    have hp' : (processSample pow c in0 in1 l).effect.iBufferPos
        = (processSample pow' c' in0 in1 l').effect.iBufferPos := by
      rw [processSample_iBufferPos, processSample_iBufferPos]
      unfold MyEffect.TapPos
      simp [hs, hr, hw, ht]
    exact ih _ _ (by simp [hs]) (by simp [hr]) (by simp [hs, hw])
      (by simp [hw, hb, h0, h1]) hp'
      (by
        rw [processSample_fDelaySig, processSample_fDelaySig, hp',
          processSample_pfCircularBuffer, processSample_pfCircularBuffer, hw, hb, h0, h1])
      (by simp [h0]) (by simp [h1])

/-- With the hiss amount at `0`, replacing the noise sequence changes nothing
but the noise sequence. -/
theorem processLoop_hiss_congr (pow : α → α → α) (c : Controls α) (hh : c.fHissAmount = 0)
    (in0 in1 : Nat → α) (noise : Nat → α) (n : Nat) (l : LoopState α) :
    processLoop pow c in0 in1 n { l with effect := { l.effect with hiss := noise } }
      = { processLoop pow c in0 in1 n l with
          effect := { (processLoop pow c in0 in1 n l).effect with hiss := noise } } := by
  induction n generalizing l with
  | zero => rfl
  | succ n ih =>
    simp only [processLoop]
    rw [← ih]
    congr 1
    unfold processSample
    simp [hh, MyEffect.TapPos]

/-! ## Claims, continued -/

/-! ### Floating-point values -/

section FloatValLemmas
omit [FloorRing α]

theorem FLT_MAX_pos : (0 : α) < FLT_MAX := by unfold FLT_MAX; norm_num

theorem FloatVal.ofExact_valid (max x : α) :
    (FloatVal.ofExact max x).Valid max := by
  unfold FloatVal.ofExact
  split_ifs with h1 h2
  · trivial
  · trivial
  · exact abs_le.mpr ⟨not_lt.mp h2, not_lt.mp h1⟩

theorem FloatVal.ofExact_of_abs_le {max x : α} (h : |x| ≤ max) :
    FloatVal.ofExact max x = .finite x := by
  unfold FloatVal.ofExact
  rw [if_neg (not_lt.mpr (abs_le.mp h).2), if_neg (not_lt.mpr (abs_le.mp h).1)]

theorem FloatVal.add_valid (max : α) (x y : FloatVal α) :
    (FloatVal.add max x y).Valid max := by
  cases x <;> cases y <;> simp only [FloatVal.add]
  · exact FloatVal.ofExact_valid _ _
  · trivial
  · trivial
  · trivial
  · split_ifs <;> trivial
  · trivial
  · trivial
  · trivial
  · trivial

theorem FloatVal.mul_valid (max : α) (x y : FloatVal α) :
    (FloatVal.mul max x y).Valid max := by
  cases x <;> cases y <;> simp only [FloatVal.mul]
  · exact FloatVal.ofExact_valid _ _
  · split_ifs <;> trivial
  · trivial
  · split_ifs <;> trivial
  · trivial
  · trivial
  · trivial
  · trivial
  · trivial

theorem FloatVal.mul_finite_one {max : α} {x : FloatVal α} (hx : x.Valid max) :
    FloatVal.mul max x (.finite 1) = x := by
  cases x with
  | finite a => simp only [FloatVal.mul, mul_one]; exact FloatVal.ofExact_of_abs_le hx
  | infinite s =>
    have h : ¬ ((1 : α) < 0) := by norm_num
    simp [FloatVal.mul, h]
  | nan => rfl

theorem FloatVal.add_finite_zero {max : α} {x : FloatVal α} (hx : x.Valid max) :
    FloatVal.add max x (.finite 0) = x := by
  cases x with
  | finite a => simp only [FloatVal.add, add_zero]; exact FloatVal.ofExact_of_abs_le hx
  | infinite s => rfl
  | nan => rfl

theorem FloatVal.finite_mul_zero {max : α} (h : 0 ≤ max) (s : α) :
    FloatVal.mul max (.finite s) (.finite 0) = .finite 0 := by
  simp only [FloatVal.mul, mul_zero]
  exact FloatVal.ofExact_of_abs_le (by simpa using h)

theorem FloatVal.one_sub_zero {max : α} (h : 1 ≤ max) :
    FloatVal.sub max (.finite 1) (.finite 0) = .finite 1 := by
  simp only [FloatVal.sub, FloatVal.neg, FloatVal.add, neg_zero, add_zero]
  exact FloatVal.ofExact_of_abs_le (by simpa using h)

end FloatValLemmas

section MixSample
omit [FloorRing α]

/-- Claim C11 fails as stated: with all controls at `0` (so `parameters[2] = 0`),
distortion type `0`, a zero delayed sample and the input pair `(2^70, 0)`, the
waveshaper overflows and the output sample is NaN, while
`(in0 + in1) + delayed*gain + 0.015*parameters[3]*noise` is `2^70`, which is
also the output with distortion type `2`. -/
theorem zero_distortion_output_is_nan :
    mixSample (fun _ _ => FloatVal.nan)
        ({ fTime := .finite 0, fFeedbackGain := .finite 0, fDistortionAmount := .finite 0,
           fHissAmount := .finite 0, iDistortType := 0 } : Controls (FloatVal ℚ))
        (.finite (2 ^ 70)) (.finite 0) (.finite 0) (.finite 0) (.finite 0) = .nan
    ∧ FloatVal.add FLT_MAX
        (FloatVal.add FLT_MAX (FloatVal.add FLT_MAX (.finite (2 ^ 70)) (.finite 0))
          (FloatVal.mul FLT_MAX (.finite 0) (.finite 0)))
        (FloatVal.mul DBL_MAX (FloatVal.mul DBL_MAX (.finite 0) (.finite 0))
          (.finite 0.015)).narrow = FloatVal.finite ((2 : ℚ) ^ 70)
    ∧ mixSample (fun _ _ => FloatVal.nan)
        ({ fTime := .finite 0, fFeedbackGain := .finite 0, fDistortionAmount := .finite 0,
           fHissAmount := .finite 0, iDistortType := 2 } : Controls (FloatVal ℚ))
        (.finite (2 ^ 70)) (.finite 0) (.finite 0) (.finite 0) (.finite 0)
      = FloatVal.finite ((2 : ℚ) ^ 70) := by
  refine ⟨?_, ?_, ?_⟩
  · simp [mixSample, distortSample, TrioderizerF, FloatVal.add, FloatVal.mul, FloatVal.sub,
      FloatVal.neg, FloatVal.narrow, FloatVal.gtZero, FloatVal.ofExact, FLT_MAX, DBL_MAX]
    norm_num
  · simp [FloatVal.add, FloatVal.mul, FloatVal.narrow, FloatVal.ofExact, FLT_MAX, DBL_MAX]
    norm_num
  · simp [mixSample, distortSample, FloatVal.add, FloatVal.mul, FloatVal.sub,
      FloatVal.neg, FloatVal.narrow, FloatVal.ofExact, FLT_MAX, DBL_MAX]
    norm_num

/-- Claim C11, amended: with `parameters[2] = 0`, an output sample whose
waveshaped signal `fDistortSig` is a finite `float` equals
`(in0 + in1) + delayed * fFeedbackGain + 0.015 * parameters[3] * noise` in the
floating-point operations of the code; so the output is the same for any two
distortion types whose waveshaped signals are both finite. -/
theorem zero_distortion_output (pow : FloatVal α → FloatVal α → FloatVal α)
    (c : Controls (FloatVal α)) (fIn0 fIn1 fDelaySig fDistortSig tick : FloatVal α)
    (hd : c.fDistortionAmount = .finite 0) (s : α)
    (hS : distortSample pow c (FloatVal.add FLT_MAX fIn0 fIn1) fDelaySig fDistortSig
        = .finite s) :
    mixSample pow c fIn0 fIn1 fDelaySig fDistortSig tick
      = FloatVal.add FLT_MAX
          (FloatVal.add FLT_MAX (FloatVal.add FLT_MAX fIn0 fIn1)
            (FloatVal.mul FLT_MAX fDelaySig c.fFeedbackGain))
          (FloatVal.mul DBL_MAX (FloatVal.mul DBL_MAX tick c.fHissAmount)
            (.finite 0.015)).narrow
    ∧ ∀ (k : Int) (t : α),
        distortSample pow { c with iDistortType := k } (FloatVal.add FLT_MAX fIn0 fIn1)
            fDelaySig fDistortSig = .finite t →
        mixSample pow { c with iDistortType := k } fIn0 fIn1 fDelaySig fDistortSig tick
          = mixSample pow c fIn0 fIn1 fDelaySig fDistortSig tick := by
  have hpos : (0 : α) ≤ FLT_MAX := FLT_MAX_pos.le
  have hone : (1 : α) ≤ FLT_MAX := by unfold FLT_MAX; norm_num
  have key : ∀ (c' : Controls (FloatVal α)) (s' : α),
      c'.fDistortionAmount = .finite 0 →
      distortSample pow c' (FloatVal.add FLT_MAX fIn0 fIn1) fDelaySig fDistortSig
        = .finite s' →
      mixSample pow c' fIn0 fIn1 fDelaySig fDistortSig tick
        = FloatVal.add FLT_MAX
            (FloatVal.add FLT_MAX (FloatVal.add FLT_MAX fIn0 fIn1)
              (FloatVal.mul FLT_MAX fDelaySig c'.fFeedbackGain))
            (FloatVal.mul DBL_MAX (FloatVal.mul DBL_MAX tick c'.fHissAmount)
              (.finite 0.015)).narrow := by
    intro c' s' hd' hS'
    unfold mixSample
    dsimp only
    rw [hS', hd', FloatVal.one_sub_zero hone, FloatVal.finite_mul_zero hpos,
      FloatVal.mul_finite_one (FloatVal.add_valid _ _ _),
      FloatVal.mul_finite_one (FloatVal.mul_valid _ _ _),
      FloatVal.add_finite_zero (FloatVal.add_valid _ _ _)]
  refine ⟨key c s hd hS, ?_⟩
  intro k t ht
  rw [key c s hd hS, key { c with iDistortType := k } t hd ht]

/-- Witness for C11 (amended): all controls `0`, distortion type `0`, input
pair `(1, 1)`, where the waveshaped signal is `1.2 * (2 * 2) = 4.8`. -/
theorem zero_distortion_output_witness :
    distortSample (fun _ _ => FloatVal.nan)
        ({ fTime := .finite 0, fFeedbackGain := .finite 0, fDistortionAmount := .finite 0,
           fHissAmount := .finite 0, iDistortType := 0 } : Controls (FloatVal ℚ))
        (FloatVal.add FLT_MAX (.finite 1) (.finite 1)) (.finite 0) (.finite 0)
      = .finite (24 / 5)
    ∧ mixSample (fun _ _ => FloatVal.nan)
        ({ fTime := .finite 0, fFeedbackGain := .finite 0, fDistortionAmount := .finite 0,
           fHissAmount := .finite 0, iDistortType := 0 } : Controls (FloatVal ℚ))
        (.finite 1) (.finite 1) (.finite 0) (.finite 0) (.finite 0)
      = FloatVal.add FLT_MAX
          (FloatVal.add FLT_MAX (FloatVal.add FLT_MAX (.finite 1) (.finite 1))
            (FloatVal.mul FLT_MAX (.finite 0) (.finite 0)))
          (FloatVal.mul DBL_MAX (FloatVal.mul DBL_MAX (.finite 0) (.finite 0))
            (.finite 0.015)).narrow :=
  have hS : distortSample (fun _ _ => FloatVal.nan)
        ({ fTime := .finite 0, fFeedbackGain := .finite 0, fDistortionAmount := .finite 0,
           fHissAmount := .finite 0, iDistortType := 0 } : Controls (FloatVal ℚ))
        (FloatVal.add FLT_MAX (.finite 1) (.finite 1)) (.finite 0) (.finite 0)
      = .finite (24 / 5) := by
    simp [distortSample, TrioderizerF, FloatVal.add, FloatVal.mul, FloatVal.narrow,
      FloatVal.gtZero, FloatVal.ofExact, FLT_MAX, DBL_MAX]
    norm_num
  ⟨hS, (zero_distortion_output (fun _ _ => FloatVal.nan) _ (.finite 1) (.finite 1) (.finite 0)
    (.finite 0) (.finite 0) rfl (24 / 5) hS).1⟩

end MixSample

/-- Claim C12: with `parameters[3] = 0`, a run of `process` with another noise
sequence, from the same state on the same input, leaves the same contents in
both output buffers, the same delay buffer and the same write cursor. -/
theorem zero_hiss_noise_independent (pow : α → α → α) (e : MyEffect α)
    (hh : e.parameters 3 = 0) (noise : Nat → α) (in0 in1 out0 out1 : Nat → α) (n : Nat) :
    (({ e with hiss := noise } : MyEffect α).process pow in0 in1 out0 out1 n).out0
      = (e.process pow in0 in1 out0 out1 n).out0
    ∧ (({ e with hiss := noise } : MyEffect α).process pow in0 in1 out0 out1 n).out1
      = (e.process pow in0 in1 out0 out1 n).out1
    ∧ (({ e with hiss := noise } : MyEffect α).process pow in0 in1 out0 out1 n).effect.pfCircularBuffer
      = (e.process pow in0 in1 out0 out1 n).effect.pfCircularBuffer
    ∧ (({ e with hiss := noise } : MyEffect α).process pow in0 in1 out0 out1 n).effect.iBufferWritePos
      = (e.process pow in0 in1 out0 out1 n).effect.iBufferWritePos := by
  have key := processLoop_hiss_congr pow e.controls hh in0 in1 noise n
    { effect := e, pfInBuffer0 := 0, pfInBuffer1 := 0, pfOutBuffer0 := 0, pfOutBuffer1 := 0,
      out0 := out0, out1 := out1, fDistortSig := 0.0, fOut0 := 0, fOut1 := 0 }
  have hp : ({ e with hiss := noise } : MyEffect α).process pow in0 in1 out0 out1 n
      = { e.process pow in0 in1 out0 out1 n with
          effect := { (e.process pow in0 in1 out0 out1 n).effect with hiss := noise } } := key
  rw [hp]
  exact ⟨rfl, rfl, rfl, rfl⟩

/-- Witness for C12: the constructed effect (hiss amount `0`), noise sequence
`1, 1, ...` replaced by `k ↦ k`, a block of two samples. -/
theorem zero_hiss_noise_independent_witness :
    (createEffect (44100 : ℚ) (fun _ => 0) 0 (fun _ => 1)).parameters 3 = 0
    ∧ (({ createEffect (44100 : ℚ) (fun _ => 0) 0 (fun _ => 1) with
          hiss := fun k => (k : ℚ) } : MyEffect ℚ).process (fun _ _ => 0)
        (fun _ => 1) (fun _ => 1) (fun _ => 0) (fun _ => 0) 2).out0
      = ((createEffect (44100 : ℚ) (fun _ => 0) 0 (fun _ => 1)).process (fun _ _ => 0)
        (fun _ => 1) (fun _ => 1) (fun _ => 0) (fun _ => 0) 2).out0 :=
  ⟨rfl,
    (zero_hiss_noise_independent (fun _ _ => (0 : ℚ))
      (createEffect (44100 : ℚ) (fun _ => 0) 0 (fun _ => 1)) rfl (fun k => (k : ℚ))
      (fun _ => 1) (fun _ => 1) (fun _ => 0) (fun _ => 0) 2).1⟩

/-- Claim C13: with a distortion type other than `0` and `1`, `process` (a
total function of its block) gives every output sample `k`, on both channels,
the value `(in0 + in1)*(1 - d) + delayed*parameters[1]^2*(1 - d)
+ 0.015*parameters[3]*noise` with `d = parameters[2]`: the distortion stage
contributes zero, in whatever state earlier blocks left the effect. -/
theorem invalid_selector_output (pow : α → α → α) (e : MyEffect α)
    (h0 : toInt (e.parameters 4) ≠ 0) (h1 : toInt (e.parameters 4) ≠ 1)
    (in0 in1 out0 out1 : Nat → α) (n k : Nat) (hk : k < n) :
    (e.process pow in0 in1 out0 out1 n).out0 k
      = (in0 k + in1 k) * (1 - e.parameters 2)
        + (e.process pow in0 in1 out0 out1 (k + 1)).effect.fDelaySig * (e.parameters 1) ^ 2
            * (1 - e.parameters 2)
        + 0.015 * e.parameters 3 * e.hiss (e.hissTicks + k)
    ∧ (e.process pow in0 in1 out0 out1 n).out1 k
      = (e.process pow in0 in1 out0 out1 n).out0 k := by
  obtain ⟨ha, hb⟩ := process_out pow e in0 in1 out0 out1 n k hk
  refine ⟨?_, hb⟩
  have hz : (e.process pow in0 in1 out0 out1 (k + 1)).fDistortSig = 0 := by
    unfold MyEffect.process
    rw [processLoop_fDistortSig_of_default pow e.controls in0 in1 h0 h1]
    norm_num
  rw [ha, hz]
  ring

/-- Witness for C13: the constructed effect with the distortion-type control
set to `2`, first sample of a one-sample block. -/
theorem invalid_selector_output_witness :
    toInt (({ createEffect (44100 : ℚ) (fun _ => 0) 0 (fun _ => 1) with
        parameters := fun i => if i = 4 then 2 else 0 } : MyEffect ℚ).parameters 4) = 2
    ∧ ((0 : Nat) < 1)
    ∧ (({ createEffect (44100 : ℚ) (fun _ => 0) 0 (fun _ => 1) with
          parameters := fun i => if i = 4 then 2 else 0 } : MyEffect ℚ).process (fun _ _ => 0)
        (fun _ => 1) (fun _ => 1) (fun _ => 0) (fun _ => 0) 1).out1 0
      = (({ createEffect (44100 : ℚ) (fun _ => 0) 0 (fun _ => 1) with
          parameters := fun i => if i = 4 then 2 else 0 } : MyEffect ℚ).process (fun _ _ => 0)
        (fun _ => 1) (fun _ => 1) (fun _ => 0) (fun _ => 0) 1).out0 0 :=
  have hsel : toInt (({ createEffect (44100 : ℚ) (fun _ => 0) 0 (fun _ => 1) with
      parameters := fun i => if i = 4 then 2 else 0 } : MyEffect ℚ).parameters 4) = 2 := by
    simp [toInt]
  ⟨hsel, by norm_num,
    (invalid_selector_output (fun _ _ => (0 : ℚ))
      ({ createEffect (44100 : ℚ) (fun _ => 0) 0 (fun _ => 1) with
        parameters := fun i => if i = 4 then 2 else 0 } : MyEffect ℚ)
      (by rw [hsel]; norm_num) (by rw [hsel]; norm_num)
      (fun _ => 1) (fun _ => 1) (fun _ => 0) (fun _ => 0) 1 0 (by norm_num)).2⟩

/-- Two calls of `process` on the same effect whose inputs agree on the first
`n` elements, with any initial contents of the output buffers, leave the same
effect and the same first `n` output elements. -/
theorem process_congr (pow : α → α → α) (e : MyEffect α)
    (in0 in1 in0' in1' out0 out1 out0' out1' : Nat → α) (n : Nat)
    (h0 : ∀ i, i < n → in0' i = in0 i) (h1 : ∀ i, i < n → in1' i = in1 i) :
    (e.process pow in0' in1' out0' out1' n).effect = (e.process pow in0 in1 out0 out1 n).effect
    ∧ ∀ k, k < n →
        (e.process pow in0' in1' out0' out1' n).out0 k = (e.process pow in0 in1 out0 out1 n).out0 k
        ∧ (e.process pow in0' in1' out0' out1' n).out1 k
            = (e.process pow in0 in1 out0 out1 n).out1 k := by
  have key := processLoop_congr pow e.controls in0' in1' in0 in1 n
    { effect := e, pfInBuffer0 := 0, pfInBuffer1 := 0, pfOutBuffer0 := 0, pfOutBuffer1 := 0,
      out0 := out0', out1 := out1', fDistortSig := 0.0, fOut0 := 0, fOut1 := 0 }
    { effect := e, pfInBuffer0 := 0, pfInBuffer1 := 0, pfOutBuffer0 := 0, pfOutBuffer1 := 0,
      out0 := out0, out1 := out1, fDistortSig := 0.0, fOut0 := 0, fOut1 := 0 }
    rfl (by simpa using h0) (by simpa using h1) (Or.inr (Or.inr rfl))
  unfold MyEffect.process
  refine ⟨(key n le_rfl).1, ?_⟩
  intro k hk
  have a := processLoop_out0 pow e.controls in0' in1' n
    { effect := e, pfInBuffer0 := 0, pfInBuffer1 := 0, pfOutBuffer0 := 0, pfOutBuffer1 := 0,
      out0 := out0', out1 := out1', fDistortSig := 0.0, fOut0 := 0, fOut1 := 0 } k hk
  have b := processLoop_out0 pow e.controls in0 in1 n
    { effect := e, pfInBuffer0 := 0, pfInBuffer1 := 0, pfOutBuffer0 := 0, pfOutBuffer1 := 0,
      out0 := out0, out1 := out1, fDistortSig := 0.0, fOut0 := 0, fOut1 := 0 } k hk
  have a' := processLoop_out1 pow e.controls in0' in1' n
    { effect := e, pfInBuffer0 := 0, pfInBuffer1 := 0, pfOutBuffer0 := 0, pfOutBuffer1 := 0,
      out0 := out0', out1 := out1', fDistortSig := 0.0, fOut0 := 0, fOut1 := 0 } k hk
  have b' := processLoop_out1 pow e.controls in0 in1 n
    { effect := e, pfInBuffer0 := 0, pfInBuffer1 := 0, pfOutBuffer0 := 0, pfOutBuffer1 := 0,
      out0 := out0, out1 := out1, fDistortSig := 0.0, fOut0 := 0, fOut1 := 0 } k hk
  simp only [Nat.zero_add] at a b a' b'
  rw [a, b, a', b']
  exact ⟨(key (k + 1) hk).2.2 (Nat.succ_pos k), (key (k + 1) hk).2.2 (Nat.succ_pos k)⟩

/-- Claim C14: a call of `process` with block length `numSamples = n` advances
all four buffer pointers by exactly `n`; its result does not depend on input
elements from index `n` on; it writes the first `n` elements of each output
buffer (whatever they held before) and leaves every element from index `n` on
as it was.  With `n = 0` nothing is written and the effect, hence the delay
buffer and the write cursor, is unchanged. -/
theorem process_block_contract (pow : α → α → α) (e : MyEffect α)
    (in0 in1 out0 out1 : Nat → α) (n : Nat) :
    ((e.process pow in0 in1 out0 out1 n).pfInBuffer0 = n
      ∧ (e.process pow in0 in1 out0 out1 n).pfInBuffer1 = n
      ∧ (e.process pow in0 in1 out0 out1 n).pfOutBuffer0 = n
      ∧ (e.process pow in0 in1 out0 out1 n).pfOutBuffer1 = n)
    ∧ (∀ in0' in1' : Nat → α, (∀ i, i < n → in0' i = in0 i) → (∀ i, i < n → in1' i = in1 i) →
        (e.process pow in0' in1' out0 out1 n).effect = (e.process pow in0 in1 out0 out1 n).effect
        ∧ (e.process pow in0' in1' out0 out1 n).out0 = (e.process pow in0 in1 out0 out1 n).out0
        ∧ (e.process pow in0' in1' out0 out1 n).out1 = (e.process pow in0 in1 out0 out1 n).out1)
    ∧ (∀ (out0' out1' : Nat → α) (k : Nat), k < n →
        (e.process pow in0 in1 out0' out1' n).out0 k = (e.process pow in0 in1 out0 out1 n).out0 k
        ∧ (e.process pow in0 in1 out0' out1' n).out1 k
            = (e.process pow in0 in1 out0 out1 n).out1 k)
    ∧ (∀ i, n ≤ i →
        (e.process pow in0 in1 out0 out1 n).out0 i = out0 i
        ∧ (e.process pow in0 in1 out0 out1 n).out1 i = out1 i)
    ∧ ((e.process pow in0 in1 out0 out1 0).effect = e
      ∧ (e.process pow in0 in1 out0 out1 0).out0 = out0
      ∧ (e.process pow in0 in1 out0 out1 0).out1 = out1) := by
  have hout : ∀ (a b : Nat → α) (i : Nat), n ≤ i →
      (e.process pow a b out0 out1 n).out0 i = out0 i
      ∧ (e.process pow a b out0 out1 n).out1 i = out1 i := by
    intro a b i hi
    have h := processLoop_out_of_not_mem pow e.controls a b n
      { effect := e, pfInBuffer0 := 0, pfInBuffer1 := 0, pfOutBuffer0 := 0, pfOutBuffer1 := 0,
        out0 := out0, out1 := out1, fDistortSig := 0.0, fOut0 := 0, fOut1 := 0 }
    exact ⟨h.1 i (Or.inr (by simpa using hi)), h.2 i (Or.inr (by simpa using hi))⟩
  refine ⟨?_, ?_, ?_, hout in0 in1, ⟨rfl, rfl, rfl⟩⟩
  · simp [MyEffect.process]
  · intro in0' in1' h0 h1
    obtain ⟨he, hk⟩ := process_congr pow e in0 in1 in0' in1' out0 out1 out0 out1 n h0 h1
    refine ⟨he, ?_, ?_⟩
    · funext i
      by_cases hi : i < n
      · exact (hk i hi).1
      · rw [(hout in0' in1' i (by omega)).1, (hout in0 in1 i (by omega)).1]
    · funext i
      by_cases hi : i < n
      · exact (hk i hi).2
      · rw [(hout in0' in1' i (by omega)).2, (hout in0 in1 i (by omega)).2]
  · intro out0' out1' k hk
    exact (process_congr pow e in0 in1 in0 in1 out0 out1 out0' out1' n
      (fun _ _ => rfl) (fun _ _ => rfl)).2 k hk

omit [FloorRing α] in
/-- What the fill loop of the constructor leaves after `n` iterations. -/
theorem zeroFill_apply (n : Nat) (buf : Int → α) (i : Int) :
    zeroFill n buf i = if 0 ≤ i ∧ i < n then 0 else buf i := by
  induction n with
  | zero =>
    have : ¬ (0 ≤ i ∧ i < ((0 : Nat) : Int)) := by push_cast; omega
    rw [if_neg this]
    rfl
  | succ n ih =>
    simp only [zeroFill]
    by_cases h : i = (n : Int)
    · subst h
      rw [Function.update_same, if_pos (by push_cast; omega)]
    · rw [Function.update_noteq h, ih]
      by_cases h2 : 0 ≤ i ∧ i < (n : Int)
      · rw [if_pos h2, if_pos (by push_cast; omega)]
      · rw [if_neg h2, if_neg (by push_cast; omega)]

/-- Claim C15 fails as stated: `createEffect(48000)` builds a delay buffer of
`88200` samples, not of `2 * 48000 = 96000`. -/
theorem createEffect_size_ignores_sampleRate :
    (createEffect (48000 : ℚ) (fun _ => 0) 0 (fun _ => 0)).iBufferSize = 88200
    ∧ (((createEffect (48000 : ℚ) (fun _ => 0) 0 (fun _ => 0)).iBufferSize : Int) : ℚ)
        ≠ 2 * 48000 := by
  constructor
  · norm_num [createEffect]
  · norm_num [createEffect]

omit [FloorRing α] in
/-- Claim C15, amended: for every sample rate passed to `createEffect`, the
constructed effect has a delay buffer of exactly `2 * 44100 = 88200` samples
(two seconds at the fixed rate `fSR = 44100`), every entry zero, and the write
cursor at `0`; the sample rate passed goes to the STK setting only. -/
theorem createEffect_buffer (sampleRate : α) (heap : Int → α) (junk : Int) (noise : Nat → α) :
    (createEffect sampleRate heap junk noise).iBufferSize = 2 * 44100
    ∧ (createEffect sampleRate heap junk noise).fSR = 44100
    ∧ (∀ i : Int, 0 ≤ i → i < (createEffect sampleRate heap junk noise).iBufferSize →
        (createEffect sampleRate heap junk noise).pfCircularBuffer i = 0)
    ∧ (createEffect sampleRate heap junk noise).iBufferWritePos = 0
    ∧ (createEffect sampleRate heap junk noise).stkSampleRate = sampleRate := by
  refine ⟨rfl, rfl, ?_, rfl, rfl⟩
  intro i h0 h1
  simp only [createEffect] at h1 ⊢
  rw [zeroFill_apply, if_pos ⟨h0, by push_cast; omega⟩]

/-- Claim C16: in a state whose cursor `c` satisfies `0 ≤ c < iBufferSize`, one
iteration of the loop of `process` on the input pair `(in0, in1)` leaves
`buffer[c] = in0 + in1` and every other buffer entry unchanged; after the tap
read that ends the write step the buffer is the buffer as written and the
cursor is the advanced cursor `c + 1`. -/
theorem write_step_frame (pow : α → α → α) (c : Controls α) (in0 in1 : Nat → α)
    (l : LoopState α) (h0 : 0 ≤ l.effect.iBufferWritePos)
    (h1 : l.effect.iBufferWritePos < l.effect.iBufferSize) :
    (processSample pow c in0 in1 l).effect.pfCircularBuffer l.effect.iBufferWritePos
      = in0 l.pfInBuffer0 + in1 l.pfInBuffer1
    ∧ (∀ j : Int, j ≠ l.effect.iBufferWritePos →
        (processSample pow c in0 in1 l).effect.pfCircularBuffer j
          = l.effect.pfCircularBuffer j)
    ∧ (processSample pow c in0 in1 l).effect.pfCircularBuffer
        = Function.update l.effect.pfCircularBuffer l.effect.iBufferWritePos
            (in0 l.pfInBuffer0 + in1 l.pfInBuffer1)
    ∧ (processSample pow c in0 in1 l).effect.iBufferWritePos = l.effect.iBufferWritePos + 1
    ∧ (processSample pow c in0 in1 l).effect.iBufferSize = l.effect.iBufferSize := by
  have _ := h0
  refine ⟨?_, ?_, rfl, ?_, rfl⟩
  · rw [processSample_pfCircularBuffer, Function.update_same]
  · intro j hj
    rw [processSample_pfCircularBuffer, Function.update_noteq hj]
  · rw [processSample_iBufferWritePos]
    unfold advance
    dsimp only
    rw [if_neg (by omega)]

/-- Witness for C16: the first iteration on the constructed effect (cursor
`0`), input pair `(1, 1)`. -/
theorem write_step_frame_witness :
    (0 : Int) ≤ (createEffect (44100 : ℚ) (fun _ => 0) 0 (fun _ => 0)).iBufferWritePos
    ∧ (createEffect (44100 : ℚ) (fun _ => 0) 0 (fun _ => 0)).iBufferWritePos
        < (createEffect (44100 : ℚ) (fun _ => 0) 0 (fun _ => 0)).iBufferSize
    ∧ (processSample (fun _ _ => (0 : ℚ))
        (createEffect (44100 : ℚ) (fun _ => 0) 0 (fun _ => 0)).controls (fun _ => 1) (fun _ => 1)
        { effect := createEffect (44100 : ℚ) (fun _ => 0) 0 (fun _ => 0), pfInBuffer0 := 0,
          pfInBuffer1 := 0, pfOutBuffer0 := 0, pfOutBuffer1 := 0, out0 := fun _ => 0,
          out1 := fun _ => 0, fDistortSig := 0.0, fOut0 := 0, fOut1 := 0 }).effect.pfCircularBuffer
          (createEffect (44100 : ℚ) (fun _ => 0) 0 (fun _ => 0)).iBufferWritePos
      = (fun _ : Nat => (1 : ℚ)) 0 + (fun _ : Nat => (1 : ℚ)) 0 :=
  have ha : (0 : Int) ≤ (createEffect (44100 : ℚ) (fun _ => 0) 0 (fun _ => 0)).iBufferWritePos := by
    simp [createEffect]
  have hb : (createEffect (44100 : ℚ) (fun _ => 0) 0 (fun _ => 0)).iBufferWritePos
      < (createEffect (44100 : ℚ) (fun _ => 0) 0 (fun _ => 0)).iBufferSize := by
    simp [createEffect]
  ⟨ha, hb,
    (write_step_frame (fun _ _ => (0 : ℚ))
      (createEffect (44100 : ℚ) (fun _ => 0) 0 (fun _ => 0)).controls (fun _ => 1) (fun _ => 1)
      { effect := createEffect (44100 : ℚ) (fun _ => 0) 0 (fun _ => 0), pfInBuffer0 := 0,
        pfInBuffer1 := 0, pfOutBuffer0 := 0, pfOutBuffer1 := 0, out0 := fun _ => 0,
        out1 := fun _ => 0, fDistortSig := 0.0, fOut0 := 0, fOut1 := 0 } ha hb).1⟩

/-- Claim C17: one call of `process` on `n + m` samples leaves the same effect
(delay buffer, cursor and every other member) and the same output samples as
a call on the first `n` samples followed by a call on the remaining `m`
samples, the second call getting the input and output buffers from element
`n` on (output buffers `o0`, `o1` with any initial contents). -/
theorem process_block_splitting (pow : α → α → α) (e : MyEffect α)
    (in0 in1 out0 out1 o0 o1 : Nat → α) (n m : Nat) :
    (e.process pow in0 in1 out0 out1 (n + m)).effect
      = ((e.process pow in0 in1 out0 out1 n).effect.process pow
          (fun i => in0 (n + i)) (fun i => in1 (n + i)) o0 o1 m).effect
    ∧ (∀ k, k < n →
        (e.process pow in0 in1 out0 out1 (n + m)).out0 k
          = (e.process pow in0 in1 out0 out1 n).out0 k
        ∧ (e.process pow in0 in1 out0 out1 (n + m)).out1 k
          = (e.process pow in0 in1 out0 out1 n).out1 k)
    ∧ (∀ j, j < m →
        (e.process pow in0 in1 out0 out1 (n + m)).out0 (n + j)
          = ((e.process pow in0 in1 out0 out1 n).effect.process pow
              (fun i => in0 (n + i)) (fun i => in1 (n + i)) o0 o1 m).out0 j
        ∧ (e.process pow in0 in1 out0 out1 (n + m)).out1 (n + j)
          = ((e.process pow in0 in1 out0 out1 n).effect.process pow
              (fun i => in0 (n + i)) (fun i => in1 (n + i)) o0 o1 m).out1 j) := by
  have hc : (e.process pow in0 in1 out0 out1 n).effect.controls = e.controls := by
    simp [MyEffect.controls, MyEffect.process]
  -- the second call against the tail of the single call
  have hd : e.controls.iDistortType = 0 ∨ e.controls.iDistortType = 1
      ∨ (e.process pow in0 in1 out0 out1 n).fDistortSig = (0.0 : α) := by
    by_cases h0 : e.controls.iDistortType = 0
    · exact Or.inl h0
    · by_cases h1 : e.controls.iDistortType = 1
      · exact Or.inr (Or.inl h1)
      · refine Or.inr (Or.inr ?_)
        unfold MyEffect.process
        rw [processLoop_fDistortSig_of_default pow e.controls in0 in1 h0 h1]
  have key := processLoop_congr pow e.controls in0 in1
    (fun i => in0 (n + i)) (fun i => in1 (n + i)) m
    (e.process pow in0 in1 out0 out1 n)
    { effect := (e.process pow in0 in1 out0 out1 n).effect, pfInBuffer0 := 0, pfInBuffer1 := 0,
      pfOutBuffer0 := 0, pfOutBuffer1 := 0, out0 := o0, out1 := o1, fDistortSig := 0.0,
      fOut0 := 0, fOut1 := 0 }
    rfl (by intro i _; simp [MyEffect.process]) (by intro i _; simp [MyEffect.process]) hd
  have hsplit : ∀ j, e.process pow in0 in1 out0 out1 (n + j)
      = processLoop pow e.controls in0 in1 j (e.process pow in0 in1 out0 out1 n) := by
    intro j
    unfold MyEffect.process
    rw [processLoop_add]
  have hsecond : ∀ j, (e.process pow in0 in1 out0 out1 n).effect.process pow
        (fun i => in0 (n + i)) (fun i => in1 (n + i)) o0 o1 j
      = processLoop pow e.controls (fun i => in0 (n + i)) (fun i => in1 (n + i)) j
          { effect := (e.process pow in0 in1 out0 out1 n).effect, pfInBuffer0 := 0,
            pfInBuffer1 := 0, pfOutBuffer0 := 0, pfOutBuffer1 := 0, out0 := o0, out1 := o1,
            fDistortSig := 0.0, fOut0 := 0, fOut1 := 0 } := by
    intro j
    rw [← hc]
    rfl
  refine ⟨?_, ?_, ?_⟩
  · rw [hsplit, hsecond]
    exact (key m le_rfl).1
  · intro k hk
    obtain ⟨a, a'⟩ := process_out pow e in0 in1 out0 out1 (n + m) k (by omega)
    obtain ⟨b, b'⟩ := process_out pow e in0 in1 out0 out1 n k hk
    rw [a', b', a, b]
    exact ⟨rfl, rfl⟩
  · intro j hj
    have a := processLoop_out0 pow e.controls in0 in1 (n + m)
      { effect := e, pfInBuffer0 := 0, pfInBuffer1 := 0, pfOutBuffer0 := 0, pfOutBuffer1 := 0,
        out0 := out0, out1 := out1, fDistortSig := 0.0, fOut0 := 0, fOut1 := 0 } (n + j)
      (by omega)
    have a' := processLoop_out1 pow e.controls in0 in1 (n + m)
      { effect := e, pfInBuffer0 := 0, pfInBuffer1 := 0, pfOutBuffer0 := 0, pfOutBuffer1 := 0,
        out0 := out0, out1 := out1, fDistortSig := 0.0, fOut0 := 0, fOut1 := 0 } (n + j)
      (by omega)
    have b := processLoop_out0 pow e.controls (fun i => in0 (n + i)) (fun i => in1 (n + i)) m
      { effect := (e.process pow in0 in1 out0 out1 n).effect, pfInBuffer0 := 0,
        pfInBuffer1 := 0, pfOutBuffer0 := 0, pfOutBuffer1 := 0, out0 := o0, out1 := o1,
        fDistortSig := 0.0, fOut0 := 0, fOut1 := 0 } j hj
    have b' := processLoop_out1 pow e.controls (fun i => in0 (n + i)) (fun i => in1 (n + i)) m
      { effect := (e.process pow in0 in1 out0 out1 n).effect, pfInBuffer0 := 0,
        pfInBuffer1 := 0, pfOutBuffer0 := 0, pfOutBuffer1 := 0, out0 := o0, out1 := o1,
        fDistortSig := 0.0, fOut0 := 0, fOut1 := 0 } j hj
    simp only [Nat.zero_add] at a a' b b'
    have hfirst : processLoop pow e.controls in0 in1 (n + j + 1)
        { effect := e, pfInBuffer0 := 0, pfInBuffer1 := 0, pfOutBuffer0 := 0, pfOutBuffer1 := 0,
          out0 := out0, out1 := out1, fDistortSig := 0.0, fOut0 := 0, fOut1 := 0 }
        = processLoop pow e.controls in0 in1 (j + 1) (e.process pow in0 in1 out0 out1 n) := by
      rw [Nat.add_assoc, processLoop_add]
      rfl
    have hv := (key (j + 1) (by omega)).2.2 (Nat.succ_pos j)
    rw [hfirst] at a a'
    have c0 : (e.process pow in0 in1 out0 out1 (n + m)).out0 (n + j)
        = (processLoop pow e.controls in0 in1 (j + 1)
            (e.process pow in0 in1 out0 out1 n)).fOut0 := a
    have c1 : (e.process pow in0 in1 out0 out1 (n + m)).out1 (n + j)
        = (processLoop pow e.controls in0 in1 (j + 1)
            (e.process pow in0 in1 out0 out1 n)).fOut0 := a'
    rw [hsecond, c0, c1, b, b']
    exact ⟨hv, hv⟩

/-- Once the cursor is in `[1, 88200]` it stays there, slot `0` is not written
again, and the delayed sample is the buffer entry at the tap index. -/
theorem processLoop_started (pow : α → α → α) (c : Controls α) (in0 in1 : Nat → α)
    (n : Nat) (l : LoopState α) (hN : l.effect.iBufferSize = 88200)
    (h1 : 1 ≤ l.effect.iBufferWritePos) (h2 : l.effect.iBufferWritePos ≤ 88200)
    (hy : l.effect.fDelaySig = l.effect.pfCircularBuffer l.effect.iBufferPos) :
    1 ≤ (processLoop pow c in0 in1 n l).effect.iBufferWritePos
    ∧ (processLoop pow c in0 in1 n l).effect.iBufferWritePos ≤ 88200
    ∧ (processLoop pow c in0 in1 n l).effect.pfCircularBuffer 0 = l.effect.pfCircularBuffer 0
    ∧ (processLoop pow c in0 in1 n l).effect.fDelaySig
        = (processLoop pow c in0 in1 n l).effect.pfCircularBuffer
            (processLoop pow c in0 in1 n l).effect.iBufferPos := by
  induction n with
  | zero => exact ⟨h1, h2, rfl, hy⟩
  | succ n ih =>
    obtain ⟨a, b, c0, _⟩ := ih
    rw [processLoop_succ_last]
    refine ⟨?_, ?_, ?_, rfl⟩
    · rw [processSample_iBufferWritePos, processLoop_iBufferSize, hN]
      unfold advance
      dsimp only
      split_ifs <;> omega
    · rw [processSample_iBufferWritePos, processLoop_iBufferSize, hN]
      unfold advance
      dsimp only
      split_ifs <;> omega
    · rw [processSample_pfCircularBuffer, Function.update_noteq (by omega), c0]

/-- The invariant of an effect that has processed its first sample. -/
theorem Started.invariant {pow : α → α → α} {v : α} {e : MyEffect α} (h : Started pow v e) :
    e.iBufferSize = 88200 ∧ 1 ≤ e.iBufferWritePos ∧ e.iBufferWritePos ≤ 88200
    ∧ e.pfCircularBuffer 0 = v ∧ e.fDelaySig = e.pfCircularBuffer e.iBufferPos := by
  induction h with
  | first sampleRate heap junk noise p in0 in1 out0 out1 n hv =>
    have hs := processLoop_started pow
      ({ createEffect sampleRate heap junk noise with parameters := p } : MyEffect α).controls
      in0 in1 n
      (processSample pow
        ({ createEffect sampleRate heap junk noise with parameters := p } : MyEffect α).controls
        in0 in1
        { effect := { createEffect sampleRate heap junk noise with parameters := p },
          pfInBuffer0 := 0, pfInBuffer1 := 0, pfOutBuffer0 := 0, pfOutBuffer1 := 0,
          out0 := out0, out1 := out1, fDistortSig := 0.0, fOut0 := 0, fOut1 := 0 })
      (by norm_num [createEffect])
      (by simp [createEffect, advance])
      (by simp [createEffect, advance])
      rfl
    refine ⟨?_, hs.1, hs.2.1, ?_, hs.2.2.2⟩
    · simp only [MyEffect.process, processLoop_iBufferSize]
      norm_num [createEffect]
    · have h0 := hs.2.2.1
      rw [processSample_pfCircularBuffer] at h0
      simp only [createEffect, Function.update_same] at h0
      rw [hv]
      exact h0
  | setParameters e p _ ih => exact ih
  | process e in0 in1 out0 out1 n _ ih =>
    obtain ⟨hN, h1, h2, hb, hy⟩ := ih
    have hs := processLoop_started pow e.controls in0 in1 n
      { effect := e, pfInBuffer0 := 0, pfInBuffer1 := 0, pfOutBuffer0 := 0, pfOutBuffer1 := 0,
        out0 := out0, out1 := out1, fDistortSig := 0.0, fOut0 := 0, fOut1 := 0 } hN h1 h2 hy
    refine ⟨?_, hs.1, hs.2.1, ?_, hs.2.2.2⟩
    · simp only [MyEffect.process, processLoop_iBufferSize]
      exact hN
    · rw [← hb]
      exact hs.2.2.1

/-- Claim C18: once an effect has processed at least one sample since its
construction, its write cursor lies in `[1, iBufferSize]` and is not `0`; slot
`0` of the buffer still holds the mono mix `v` of the first sample ever
processed, and the most recent tap read, if it went to slot `0`, returned
`v`. -/
theorem cursor_never_zero_again (pow : α → α → α) (v : α) (e : MyEffect α)
    (h : Started pow v e) :
    1 ≤ e.iBufferWritePos ∧ e.iBufferWritePos ≤ e.iBufferSize ∧ e.iBufferWritePos ≠ 0
    ∧ e.pfCircularBuffer 0 = v
    ∧ (e.iBufferPos = 0 → e.fDelaySig = v) := by
  obtain ⟨hN, h1, h2, hb, hy⟩ := h.invariant
  refine ⟨h1, by rw [hN]; exact h2, by omega, hb, ?_⟩
  intro hp
  rw [hy, hp, hb]

/-- Witness for C18: the constructed effect after a first block of one sample
with input pair `(3, 4)`. -/
theorem cursor_never_zero_again_witness :
    Started (fun _ _ => (0 : ℚ)) ((fun _ : Nat => (3 : ℚ)) 0 + (fun _ : Nat => (4 : ℚ)) 0)
      (({ createEffect (44100 : ℚ) (fun _ => 0) 0 (fun _ => 0) with
          parameters := fun _ => 0 } : MyEffect ℚ).process (fun _ _ => 0)
        (fun _ => 3) (fun _ => 4) (fun _ => 0) (fun _ => 0) (0 + 1)).effect
    ∧ (({ createEffect (44100 : ℚ) (fun _ => 0) 0 (fun _ => 0) with
          parameters := fun _ => 0 } : MyEffect ℚ).process (fun _ _ => 0)
        (fun _ => 3) (fun _ => 4) (fun _ => 0) (fun _ => 0) (0 + 1)).effect.pfCircularBuffer 0
      = (fun _ : Nat => (3 : ℚ)) 0 + (fun _ : Nat => (4 : ℚ)) 0 :=
  ⟨Started.first _ _ _ _ _ _ _ _ _ 0 rfl,
    (cursor_never_zero_again (fun _ _ => (0 : ℚ)) _ _
      (Started.first (44100 : ℚ) (fun _ => 0) 0 (fun _ => 0) (fun _ => 0)
        (fun _ => 3) (fun _ => 4) (fun _ => 0) (fun _ => 0) 0 rfl)).2.2.2.1⟩

/-- Claim C19: two runs of `process` from the same state on the same input, with
any control values, noise sequences and power functions, leave the same delay
buffer and the same write cursor; each iteration `k` stores `in0 + in1` of
that sample at the cursor it found, and nothing else is written to the
buffer. -/
theorem delay_line_feed_forward (pow pow' : α → α → α) (e : MyEffect α)
    (p p' noise noise' in0 in1 out0 out1 out0' out1' : Nat → α) (n : Nat) :
    (({ e with parameters := p, hiss := noise } : MyEffect α).process pow
        in0 in1 out0 out1 n).effect.pfCircularBuffer
      = (({ e with parameters := p', hiss := noise' } : MyEffect α).process pow'
        in0 in1 out0' out1' n).effect.pfCircularBuffer
    ∧ (({ e with parameters := p, hiss := noise } : MyEffect α).process pow
        in0 in1 out0 out1 n).effect.iBufferWritePos
      = (({ e with parameters := p', hiss := noise' } : MyEffect α).process pow'
        in0 in1 out0' out1' n).effect.iBufferWritePos
    ∧ ∀ k,
        (e.process pow in0 in1 out0 out1 (k + 1)).effect.pfCircularBuffer
          = Function.update (e.process pow in0 in1 out0 out1 k).effect.pfCircularBuffer
              (e.process pow in0 in1 out0 out1 k).effect.iBufferWritePos (in0 k + in1 k) := by
  have key := processLoop_buffer_congr pow pow'
    ({ e with parameters := p, hiss := noise } : MyEffect α).controls
    ({ e with parameters := p', hiss := noise' } : MyEffect α).controls in0 in1 n
    { effect := { e with parameters := p, hiss := noise }, pfInBuffer0 := 0, pfInBuffer1 := 0,
      pfOutBuffer0 := 0, pfOutBuffer1 := 0, out0 := out0, out1 := out1, fDistortSig := 0.0,
      fOut0 := 0, fOut1 := 0 }
    { effect := { e with parameters := p', hiss := noise' }, pfInBuffer0 := 0, pfInBuffer1 := 0,
      pfOutBuffer0 := 0, pfOutBuffer1 := 0, out0 := out0', out1 := out1', fDistortSig := 0.0,
      fOut0 := 0, fOut1 := 0 }
    rfl rfl rfl rfl rfl
  refine ⟨key.2, key.1, ?_⟩
  intro k
  unfold MyEffect.process
  rw [processLoop_succ_last, processSample_pfCircularBuffer]
  simp

end TapeDelay
